import Mathlib

/-
  Shallow embedding of the caching subsystem of the repository:
  src/caching/response_cache.py (CacheKey, MemoryCache, RedisCache,
  ResponseCache) and src/caching/request_deduper.py (RequestDeduplicator).

  Modelling conventions:
  * Python values that can flow through the cache are modelled by PyValue.
    Numbers are modelled as integers; none of the verified properties
    depends on float formatting.  PyValue.obj stands for any Python object
    that json.dumps cannot serialize (a set, a datetime, a custom class...).
  * Machine floats used for timestamps and TTLs are modelled as integers
    in a fixed time unit; only their ordering matters to the cache.
  * Exceptions are modelled with Except; a caught exception is a .error
    value consumed by the embedding of the try/except block.
-/

set_option autoImplicit false

/-- Model of the Python values handled by the cache. -/
inductive PyValue where
  | none
  | bool (b : Bool)
  | int (n : Int)
  | str (s : String)
  | list (xs : List PyValue)
  | dict (entries : List (String × PyValue))
  | obj (typeName : String)

/-- Hex digit for JSON unicode escapes (lowercase, as CPython emits). -/
def hexDigit (n : Nat) : Char :=
  if n < 10 then Char.ofNat (48 + n) else Char.ofNat (87 + n)

/-- A four-hex-digit JSON escape: backslash-u XXXX. -/
def uEscape4 (n : Nat) : String :=
  "\\u" ++ String.mk [hexDigit (n / 4096 % 16), hexDigit (n / 256 % 16),
                      hexDigit (n / 16 % 16), hexDigit (n % 16)]

/-- JSON escape of one character, following json.dumps with its default
ensure_ascii=True: non-ASCII characters become unicode escapes, astral
characters become surrogate pairs. -/
def jsonEscapeChar (c : Char) : String :=
  if c = '"' then "\\\""
  else if c = '\\' then "\\\\"
  else if c = '\n' then "\\n"
  else if c = '\t' then "\\t"
  else if c = '\r' then "\\r"
  else if c = Char.ofNat 8 then "\\b"
  else if c = Char.ofNat 12 then "\\f"
  else if c.toNat < 32 ∨ c.toNat > 126 then
    if c.toNat ≤ 65535 then uEscape4 c.toNat
    else
      let m := c.toNat - 65536
      uEscape4 (55296 + m / 1024) ++ uEscape4 (56320 + m % 1024)
  else String.singleton c

/-- JSON string literal as json.dumps renders it. -/
def jsonQuote (s : String) : String :=
  "\"" ++ String.join (s.data.map jsonEscapeChar) ++ "\""

mutual
/-- json.dumps(value) with default options: comma-space and colon-space
separators, no key sorting.  Raises (returns .error) on a value json
cannot serialize, exactly as json.dumps raises TypeError. -/
def dumps : PyValue → Except Unit String
  | .none => .ok "null"
  | .bool true => .ok "true"
  | .bool false => .ok "false"
  | .int n => .ok (toString n)
  | .str s => .ok (jsonQuote s)
  | .list xs => do pure ("[" ++ String.intercalate ", " (← dumpsArr xs) ++ "]")
  | .dict es => do
      pure ("\x7b" ++ String.intercalate ", " ((← dumpsEntries es).map
        (fun kv => jsonQuote kv.1 ++ ": " ++ kv.2)) ++ "\x7d")
  | .obj _ => .error ()

/-- Renders the elements of a JSON array in order. -/
def dumpsArr : List PyValue → Except Unit (List String)
  | [] => .ok []
  | v :: vs => do pure ((← dumps v) :: (← dumpsArr vs))

/-- Renders the entries of a JSON object in order, keeping the raw key. -/
def dumpsEntries : List (String × PyValue) → Except Unit (List (String × String))
  | [] => .ok []
  | (k, v) :: es => do pure ((k, ← dumps v) :: (← dumpsEntries es))
end

/-- Python string comparison a less-or-equal b: lexicographic on code
points. -/
def charsLe : List Char → List Char → Bool
  | [], _ => true
  | _ :: _, [] => false
  | a :: as, b :: bs =>
    if a.toNat < b.toNat then true
    else if b.toNat < a.toNat then false
    else charsLe as bs

/-- Python string less-or-equal, on the character sequences. -/
def pyStrLe (a b : String) : Bool := charsLe a.data b.data

/-- The comparison Python sorted uses on dict items: by key first (with
distinct keys the tuple comparison never reaches the values). -/
def keyLe {α : Type} (a b : String × α) : Prop := pyStrLe a.1 b.1 = true

instance {α : Type} : DecidableRel (keyLe (α := α)) :=
  fun a b => instDecidableEqBool (pyStrLe a.1 b.1) true

/-- Sort a key-value list by its keys, as Python sorted does on dict
items.  Python uses a stable sort; insertion sort is stable, and the key
lists at hand have distinct keys anyway. -/
def sortByKey {α : Type} (l : List (String × α)) : List (String × α) :=
  List.insertionSort keyLe l

mutual
/-- json.dumps(value, sort_keys=True): object entries are emitted in
ascending key order.  Rendering an entry commutes with sorting by key, so
the model renders entries first and then sorts the rendered pairs by their
raw key; the emitted text is the same. -/
def dumpsSorted : PyValue → Except Unit String
  | .none => .ok "null"
  | .bool true => .ok "true"
  | .bool false => .ok "false"
  | .int n => .ok (toString n)
  | .str s => .ok (jsonQuote s)
  | .list xs => do pure ("[" ++ String.intercalate ", " (← dumpsSortedArr xs) ++ "]")
  | .dict es => do
      pure ("\x7b" ++ String.intercalate ", " ((sortByKey (← dumpsSortedEntries es)).map
        (fun kv => jsonQuote kv.1 ++ ": " ++ kv.2)) ++ "\x7d")
  | .obj _ => .error ()

/-- Renders array elements for the sort_keys variant. -/
def dumpsSortedArr : List PyValue → Except Unit (List String)
  | [] => .ok []
  | v :: vs => do pure ((← dumpsSorted v) :: (← dumpsSortedArr vs))

/-- Renders object entries for the sort_keys variant, keeping raw keys. -/
def dumpsSortedEntries : List (String × PyValue) → Except Unit (List (String × String))
  | [] => .ok []
  | (k, v) :: es => do pure ((k, ← dumpsSorted v) :: (← dumpsSortedEntries es))
end

/-- Effectful map over a list in the Except monad, in order, stopping at
the first raised exception (the evaluation order of the source's list
building). -/
def mapE {α β : Type} (f : α → Except Unit β) : List α → Except Unit (List β)
  | [] => .ok []
  | a :: as => do pure ((← f a) :: (← mapE f as))

namespace CacheKey

/-- str.lower on one character.  Python lowercases the full Unicode
range; the keys of this repository are ASCII, which is the fragment
modelled. -/
def lowerChar (c : Char) : Char :=
  if 'A' ≤ c ∧ c ≤ 'Z' then Char.ofNat (c.toNat + 32) else c

/-- The whitespace set stripped by str.strip (ASCII fragment). -/
def isSpaceChar (c : Char) : Bool :=
  c = ' ' ∨ c = '\t' ∨ c = '\n' ∨ c = '\r' ∨ c = Char.ofNat 11 ∨ c = Char.ofNat 12

/-- CacheKey.normalize: key.lower().strip().replace(" ", "_"), modelled
character by character (replacing a one-character pattern is a pointwise
map). -/
def normalize (key : String) : String :=
  let lowered := key.data.map lowerChar
  let stripped := ((lowered.dropWhile isSpaceChar).reverse.dropWhile isSpaceChar).reverse
  String.mk (stripped.map (fun c => if c = ' ' then '_' else c))

/-- CacheKey.hash_data: sha256 of the canonical (sort_keys) JSON encoding,
truncated to 16 hex characters.  The hash itself is an uninterpreted
function parameter h: every verified property of the key builder depends
only on hash_data being a function of the canonical serialization, not on
which function sha256 is. -/
def hash_data (h : String → String) (data : PyValue) : Except Unit String :=
  (dumpsSorted data).map h

/-- isinstance(arg, (str, int, float)): Python bool is a subclass of int,
so booleans take the primitive branch too. -/
def isPrimitive : PyValue → Bool
  | .str _ => true
  | .int _ => true
  | .bool _ => true
  | _ => false

/-- Python str() on the primitive values above. -/
def pyStr : PyValue → String
  | .str s => s
  | .int n => toString n
  | .bool true => "True"
  | .bool false => "False"
  | _ => ""

/-- One positional-argument part of the key. -/
def argPart (h : String → String) (a : PyValue) : Except Unit String :=
  if isPrimitive a then .ok (pyStr a) else hash_data h a

/-- One keyword-argument part of the key: "name=value". -/
def kwPart (h : String → String) (kv : String × PyValue) : Except Unit String :=
  if isPrimitive kv.2 then .ok (kv.1 ++ "=" ++ pyStr kv.2)
  else do pure (kv.1 ++ "=" ++ (← hash_data h kv.2))

/-- CacheKey.generate: prefix, stringified-or-hashed positional arguments,
then keyword arguments sorted by name as name=value parts; every part is
normalized and the parts are joined with ":".  kwargs is the keyword
mapping as a list of (name, value) pairs in the order supplied. -/
def generate (h : String → String) (pre : String) (args : List PyValue)
    (kwargs : List (String × PyValue)) : Except Unit String := do
  let argParts ← mapE (argPart h) args
  let kwParts ← mapE (kwPart h) (sortByKey kwargs)
  pure (String.intercalate ":" ((pre :: (argParts ++ kwParts)).map normalize))

end CacheKey

example : CacheKey.generate id "NFPA" [PyValue.str "Search Q"] [] =
    .ok "nfpa:search_q" := rfl

example : CacheKey.generate id "p" [] [("b", PyValue.int 2), ("a", PyValue.int 1)] =
    .ok "p:a=1:b=2" := rfl

example : CacheKey.generate id "p" [PyValue.obj "set"] [] = .error () := rfl

example : dumpsSorted (PyValue.dict [("b", PyValue.int 1), ("a", PyValue.none)]) =
    .ok "\x7b\"a\": null, \"b\": 1\x7d" := rfl

/-- A stored near-tier entry: (value, timestamp, ttl), as in
self._cache[key] = (value, timestamp, ttl).  Timestamps and TTLs are
modelled as integers in a fixed time unit (floats carry no extra
structure relevant to the verified properties; the concrete 0.1s / 0.2s
scenario is stated in tenths of a second). -/
abbrev MemEntry := PyValue × ℤ × ℤ

/-- Python dict assignment d[k] = v: replaces the binding in place if the
key is present (first binding; the dicts at hand have distinct keys),
appends a new binding otherwise. -/
def dictSet {α : Type} (cache : List (String × α)) (k : String) (v : α) :
    List (String × α) :=
  match cache with
  | [] => [(k, v)]
  | (k', v') :: rest => if k' = k then (k, v) :: rest else (k', v') :: dictSet rest k v

/-- Python del d[k]: removes the binding (first binding; the dicts at
hand have distinct keys).  Used where the source guards with
"if k in d". -/
def dictDel {α : Type} (cache : List (String × α)) (k : String) :
    List (String × α) :=
  match cache with
  | [] => []
  | (k', v') :: rest => if k' = k then rest else (k', v') :: dictDel rest k

/-- MemoryCache state: maxsize, the entry dict, and the LRU access-order
list (least recently used first). -/
structure MemoryCache where
  maxsize : Nat
  cache : List (String × MemEntry)
  accessOrder : List String

/-- The eviction loop of MemoryCache.set:
while len(cache) > maxsize: pop the head of the access order and delete
that key.  (Under the class invariant the access order covers the cache,
so the loop always terminates with the size bound met; an exhausted order
list would be an IndexError in the source and stops the loop here.) -/
def evict (maxsize : Nat) (cache : List (String × MemEntry)) :
    List String → List (String × MemEntry) × List String
  | [] => (cache, [])
  | lru :: rest =>
    if cache.length ≤ maxsize then (cache, lru :: rest)
    else evict maxsize (dictDel cache lru) rest

/-- MemoryCache.get: miss when absent; lazy expiry (delete and miss) when
now - timestamp > ttl; otherwise move the key to the most-recently-used
end and return the value.  Returns the new state and the returned Python
value (Python returns None for a miss). -/
def MemoryCache.get (m : MemoryCache) (now : ℤ) (key : String) :
    MemoryCache × PyValue :=
  match m.cache.lookup key with
  | Option.none => (m, PyValue.none)
  | Option.some (value, timestamp, ttl) =>
    let age := now - timestamp
    if age > ttl then
      ({ m with cache := dictDel m.cache key,
                accessOrder := m.accessOrder.erase key }, PyValue.none)
    else
      ({ m with accessOrder := m.accessOrder.erase key ++ [key] }, value)

/-- MemoryCache.set: insert/overwrite the entry, mark most recently used,
then evict from the least-recently-used end until size is within
maxsize. -/
def MemoryCache.set (m : MemoryCache) (key : String) (value : PyValue)
    (ttl : ℤ) (now : ℤ) : MemoryCache :=
  let cache1 := dictSet m.cache key (value, now, ttl)
  let order1 := m.accessOrder.erase key ++ [key]
  if cache1.length ≤ m.maxsize then
    { m with cache := cache1, accessOrder := order1 }
  else
    let res := evict m.maxsize cache1 order1
    { m with cache := res.1, accessOrder := res.2 }

/-- MemoryCache.invalidate: remove the entry and its recency record. -/
def MemoryCache.invalidate (m : MemoryCache) (key : String) : MemoryCache :=
  { m with cache := dictDel m.cache key, accessOrder := m.accessOrder.erase key }

/-- MemoryCache.clear: drop all entries and recency records. -/
def MemoryCache.clear (m : MemoryCache) : MemoryCache :=
  { m with cache := [], accessOrder := [] }

/-- The class invariant relating the entry dict and the access-order
list: keys are unique on both sides and they track each other. -/
def MemoryCache.WF (m : MemoryCache) : Prop :=
  (m.cache.map Prod.fst).Nodup ∧ m.accessOrder.Nodup ∧
    (∀ k, k ∈ m.cache.map Prod.fst ↔ k ∈ m.accessOrder)

/-- A fresh near tier, as constructed by MemoryCache(maxsize). -/
def MemoryCache.mkFresh (maxsize : Nat) : MemoryCache :=
  { maxsize := maxsize, cache := [], accessOrder := [] }

example :
    (((((MemoryCache.mkFresh 2).set "a" (PyValue.int 1) 100 0).set
      "b" (PyValue.int 2) 100 1).set "c" (PyValue.int 3) 100 2).get 3 "a").2 =
    PyValue.none := rfl

example :
    (((((MemoryCache.mkFresh 2).set "a" (PyValue.int 1) 100 0).set
      "b" (PyValue.int 2) 100 1).set "c" (PyValue.int 3) 100 2).get 3 "b").2 =
    PyValue.int 2 := rfl

example :
    (((MemoryCache.mkFresh 100).set "k" (PyValue.str "v") 1 0).get
      2 "k").2 = PyValue.none := rfl

example :
    (((MemoryCache.mkFresh 100).set "k" (PyValue.str "v") 1 0).get
      0 "k").2 = PyValue.str "v" := rfl

/-- JSON whitespace skipping for the loads model. -/
def skipWs (cs : List Char) : List Char :=
  cs.dropWhile (fun c => c = ' ' ∨ c = '\t' ∨ c = '\n' ∨ c = '\r')

/-- Hex digit value for unicode escapes in loads. -/
def hexVal (c : Char) : Except Unit Nat :=
  if '0' ≤ c ∧ c ≤ '9' then .ok (c.toNat - 48)
  else if 'a' ≤ c ∧ c ≤ 'f' then .ok (c.toNat - 87)
  else if 'A' ≤ c ∧ c ≤ 'F' then .ok (c.toNat - 55)
  else .error ()

/-- Reads the four hex digits of a unicode escape. -/
def parseU4 : List Char → Except Unit (Nat × List Char)
  | c1 :: c2 :: c3 :: c4 :: rest => do
      pure ((← hexVal c1) * 4096 + (← hexVal c2) * 256 + (← hexVal c3) * 16
        + (← hexVal c4), rest)
  | _ => .error ()

/-- String body parser of the loads model (after the opening quote),
with the JSON escapes, including surrogate-pair recombination as
json.loads performs it. -/
def parseStr : Nat → List Char → List Char → Except Unit (String × List Char)
  | 0, _, _ => .error ()
  | _ + 1, acc, '"' :: rest => .ok (String.mk acc.reverse, rest)
  | fuel + 1, acc, '\\' :: esc =>
    match esc with
    | '"' :: rest => parseStr fuel ('"' :: acc) rest
    | '\\' :: rest => parseStr fuel ('\\' :: acc) rest
    | '/' :: rest => parseStr fuel ('/' :: acc) rest
    | 'n' :: rest => parseStr fuel ('\n' :: acc) rest
    | 't' :: rest => parseStr fuel ('\t' :: acc) rest
    | 'r' :: rest => parseStr fuel ('\r' :: acc) rest
    | 'b' :: rest => parseStr fuel (Char.ofNat 8 :: acc) rest
    | 'f' :: rest => parseStr fuel (Char.ofNat 12 :: acc) rest
    | 'u' :: rest => do
      let (n, rest1) ← parseU4 rest
      if 55296 ≤ n ∧ n ≤ 56319 then
        match rest1 with
        | '\\' :: 'u' :: rest2 => do
          let (n2, rest3) ← parseU4 rest2
          if 56320 ≤ n2 ∧ n2 ≤ 57343 then
            parseStr fuel (Char.ofNat (65536 + (n - 55296) * 1024 + (n2 - 56320)) :: acc) rest3
          else .error ()
        | _ => .error ()
      else parseStr fuel (Char.ofNat n :: acc) rest1
    | _ => .error ()
  | fuel + 1, acc, c :: rest =>
    if c.toNat < 32 then .error () else parseStr fuel (c :: acc) rest
  | _ + 1, _, [] => .error ()

/-- Number parser of the loads model.  JSON integers only: the values this
cache ever serializes have integer numbers (PyValue has no float), so a
fractional or exponent part is out of the modelled fragment. -/
def parseNum (cs : List Char) : Except Unit (PyValue × List Char) :=
  let (neg, cs1) := match cs with
    | '-' :: r => (true, r)
    | _ => (false, cs)
  let digits := cs1.takeWhile Char.isDigit
  let rest := cs1.dropWhile Char.isDigit
  if digits.isEmpty then .error ()
  else if 1 < digits.length ∧ digits.headD '0' = '0' then .error ()
  else match rest with
    | '.' :: _ => .error ()
    | 'e' :: _ => .error ()
    | 'E' :: _ => .error ()
    | _ =>
      let n : Nat := digits.foldl (fun a c => a * 10 + (c.toNat - 48)) 0
      .ok (PyValue.int (if neg then -(n : Int) else (n : Int)), rest)

mutual
/-- Value parser of the loads model. -/
def parseValue : Nat → List Char → Except Unit (PyValue × List Char)
  | 0, _ => .error ()
  | fuel + 1, cs =>
    match skipWs cs with
    | 'n' :: 'u' :: 'l' :: 'l' :: rest => .ok (PyValue.none, rest)
    | 't' :: 'r' :: 'u' :: 'e' :: rest => .ok (PyValue.bool true, rest)
    | 'f' :: 'a' :: 'l' :: 's' :: 'e' :: rest => .ok (PyValue.bool false, rest)
    | '"' :: rest => do
        let (s, r) ← parseStr fuel [] rest
        pure (PyValue.str s, r)
    | '[' :: rest =>
      (match skipWs rest with
       | ']' :: r => .ok (PyValue.list [], r)
       | _ => parseElems fuel rest [])
    | c :: rest =>
      if c = Char.ofNat 123 then
        (match skipWs rest with
         | c2 :: r => if c2 = Char.ofNat 125 then .ok (PyValue.dict [], r)
                      else parsePairs fuel (c2 :: r) []
         | [] => .error ())
      else parseNum (c :: rest)
    | [] => .error ()

/-- Array-element parser of the loads model. -/
def parseElems : Nat → List Char → List PyValue → Except Unit (PyValue × List Char)
  | 0, _, _ => .error ()
  | fuel + 1, cs, acc => do
    let (v, r) ← parseValue fuel cs
    match skipWs r with
    | ',' :: r2 => parseElems fuel r2 (acc ++ [v])
    | ']' :: r2 => .ok (PyValue.list (acc ++ [v]), r2)
    | _ => .error ()

/-- Object-member parser of the loads model. -/
def parsePairs : Nat → List Char → List (String × PyValue) → Except Unit (PyValue × List Char)
  | 0, _, _ => .error ()
  | fuel + 1, cs, acc =>
    match skipWs cs with
    | '"' :: r => do
      let (k, r1) ← parseStr fuel [] r
      match skipWs r1 with
      | ':' :: r2 => do
        let (v, r3) ← parseValue fuel r2
        (match skipWs r3 with
         | ',' :: r4 => parsePairs fuel r4 (acc ++ [(k, v)])
         | c :: r4 => if c = Char.ofNat 125 then .ok (PyValue.dict (acc ++ [(k, v)]), r4)
                      else .error ()
         | [] => .error ())
      | _ => .error ()
    | _ => .error ()
end

/-- json.loads: parse a complete JSON document; anything but whitespace
after the value is an error, as is any malformed input. -/
def loads (s : String) : Except Unit PyValue := do
  let (v, rest) ← parseValue (2 * s.data.length + 4) s.data
  match skipWs rest with
  | [] => pure v
  | _ => .error ()

example : loads "null" = .ok PyValue.none := rfl
example : loads " \x7b\"a\": [1, -2, \"x\"]\x7d " =
    .ok (PyValue.dict [("a", PyValue.list [PyValue.int 1, PyValue.int (-2), PyValue.str "x"])]) := rfl
example : loads "not json" = .error () := rfl
example : loads "" = .error () := rfl

/-- The external redis server/client pair, as seen through the calls the
far tier makes.  sigma is the server state; an operation either returns
(get leaves the server unchanged) or raises (.error, the state is then
unchanged from the caller's point of view). -/
structure Backend (σ : Type) where
  rawGet : σ → String → Except Unit (Option String)
  rawSetex : σ → String → ℤ → String → Except Unit σ
  rawDelete : σ → List String → Except Unit (σ × Nat)
  rawScan : σ → String → Except Unit (List String)

/-- RedisCache state: the connected flag (self._connected and self._redis
collapse to one flag: both are set together), the default TTL, and the
backend server state. -/
structure RedisState (σ : Type) where
  connected : Bool
  defaultTtl : ℤ
  backend : σ

/-- The try-block of RedisCache.get: raw get, miss on nil, else
deserialize. -/
def RedisCache.getBody {σ : Type} (B : Backend σ) (st : RedisState σ)
    (key : String) : Except Unit PyValue := do
  match ← B.rawGet st.backend key with
  | Option.none => pure PyValue.none
  | Option.some s => loads s

/-- RedisCache.get: returns None when not connected; any exception of the
try-block (raw call failure or json.loads failure) is caught and becomes
None. -/
def RedisCache.get {σ : Type} (B : Backend σ) (st : RedisState σ)
    (key : String) : PyValue :=
  if st.connected = false then PyValue.none
  else
    match RedisCache.getBody B st key with
    | .ok v => v
    | .error _ => PyValue.none

/-- The try-block of RedisCache.set: serialize, then SETEX with
ttl or default_ttl (Python "ttl or self.default_ttl": None and 0 both
fall back to the default). -/
def RedisCache.setBody {σ : Type} (B : Backend σ) (st : RedisState σ)
    (key : String) (value : PyValue) (ttl : Option ℤ) : Except Unit σ := do
  let data ← dumps value
  let ttlSeconds := match ttl with
    | Option.none => st.defaultTtl
    | Option.some t => if t = 0 then st.defaultTtl else t
  B.rawSetex st.backend key ttlSeconds data

/-- RedisCache.set: False when not connected; serialization or SETEX
failure is caught and returns False; True on success. -/
def RedisCache.set {σ : Type} (B : Backend σ) (st : RedisState σ)
    (key : String) (value : PyValue) (ttl : Option ℤ) : Bool × RedisState σ :=
  if st.connected = false then (false, st)
  else
    match RedisCache.setBody B st key value ttl with
    | .ok s' => (true, { st with backend := s' })
    | .error _ => (false, st)

/-- RedisCache.invalidate: False when not connected; DELETE failure is
caught and returns False; otherwise returns whether a key was deleted. -/
def RedisCache.invalidate {σ : Type} (B : Backend σ) (st : RedisState σ)
    (key : String) : Bool × RedisState σ :=
  if st.connected = false then (false, st)
  else
    match B.rawDelete st.backend [key] with
    | .ok (s', deleted) => (decide (0 < deleted), { st with backend := s' })
    | .error _ => (false, st)

/-- RedisCache.clear_pattern: 0 when not connected; SCAN collects the
matching keys, a nonempty batch is deleted and counted; any failure is
caught and returns 0. -/
def RedisCache.clear_pattern {σ : Type} (B : Backend σ) (st : RedisState σ)
    (pat : String) : Nat × RedisState σ :=
  if st.connected = false then (0, st)
  else
    match (do
      let keys ← B.rawScan st.backend pat
      if keys.isEmpty then Except.ok (st.backend, 0)
      else B.rawDelete st.backend keys : Except Unit (σ × Nat)) with
    | .ok (s', deleted) => (deleted, { st with backend := s' })
    | .error _ => (0, st)

/-- DEL on the healthy far-tier store: drop every binding of a named
key. -/
def removeKeys (store : List (String × String)) (ks : List String) :
    List (String × String) :=
  match store with
  | [] => []
  | (k, v) :: rest =>
    if ks.contains k then removeKeys rest ks else (k, v) :: removeKeys rest ks

/-- A healthy redis server modelled as a string-to-string store.  GET is
lookup; SETEX stores (redis raises on a nonpositive TTL, a healthy server
still errors that call); DEL removes every named key and reports how many
existed; SCAN returns the stored keys matching the glob pattern
(prefix-star patterns, the shape this repository uses). -/
def goodBackend : Backend (List (String × String)) where
  rawGet := fun store k => .ok (store.lookup k)
  rawSetex := fun store k ttl v =>
    if ttl ≤ 0 then .error () else .ok (dictSet store k v)
  rawDelete := fun store ks =>
    .ok (removeKeys store ks,
         (ks.filter (fun k => (store.lookup k).isSome)).length)
  rawScan := fun store pat =>
    let keys := store.map Prod.fst
    if pat.data.getLast? = Option.some '*' then
      .ok (keys.filter (fun k => pat.data.dropLast.isPrefixOf k.data))
    else .ok (keys.filter (fun k => k = pat))

/-- The process-wide hit/miss counters of ResponseCache._stats.  The
stats dict holds exactly these four counters (hits per tier, misses,
sets); there is no deduplication counter. -/
structure Stats where
  memoryHits : Nat
  redisHits : Nat
  misses : Nat
  sets : Nat

/-- The orchestrator: near tier, far tier, and the _stats counters
(named counters here; stats is the observational method below). -/
structure ResponseCache (σ : Type) where
  memory : MemoryCache
  redis : RedisState σ
  counters : Stats

/-- A fresh orchestrator over a given far-tier state:
ResponseCache() builds MemoryCache(maxsize=100) and zeroed stats. -/
def ResponseCache.mkFresh {σ : Type} (redis : RedisState σ) : ResponseCache σ :=
  { memory := MemoryCache.mkFresh 100, redis := redis,
    counters := { memoryHits := 0, redisHits := 0, misses := 0, sets := 0 } }

/-- Outcome of the part of get_or_compute that runs before compute_fn:
either a tier hit with its early return, or a miss that proceeds to
compute (the miss counter is already incremented, as the source counts
the miss before computing). -/
inductive PreResult (σ : Type) where
  | hit (v : PyValue) (rc : ResponseCache σ)
  | missCompute (rc : ResponseCache σ)

/-- Layers 1 and 2 of get_or_compute: memory probe ("is not None" is the
hit test, so a stored None is indistinguishable from a miss), then redis
probe with near-tier population on a far hit, then the miss counting. -/
def ResponseCache.gocPre {σ : Type} (B : Backend σ) (now : ℤ)
    (rc : ResponseCache σ) (key : String) (ttlMemory : ℤ) : PreResult σ :=
  let probe := rc.memory.get now key
  let mem1 := probe.1
  let rc1 : ResponseCache σ := { rc with memory := mem1 }
  match probe.2 with
  | PyValue.none =>
    match RedisCache.get B rc1.redis key with
    | PyValue.none =>
      .missCompute { rc1 with counters := { rc1.counters with misses := rc1.counters.misses + 1 } }
    | v2 =>
      .hit v2 { rc1 with
        counters := { rc1.counters with redisHits := rc1.counters.redisHits + 1 },
        memory := mem1.set key v2 ttlMemory now }
  | v1 =>
    .hit v1 { rc1 with counters := { rc1.counters with memoryHits := rc1.counters.memoryHits + 1 } }

/-- The tail of get_or_compute after compute_fn returned: populate both
tiers (the redis set's boolean result is ignored, exactly as the source
ignores it) and count the set. -/
def ResponseCache.gocPost {σ : Type} (B : Backend σ) (now : ℤ)
    (rc : ResponseCache σ) (key : String) (value : PyValue)
    (ttlMemory : ℤ) (ttlRedis : ℤ) : ResponseCache σ :=
  let mem2 := rc.memory.set key value ttlMemory now
  let redis2 := (RedisCache.set B rc.redis key value (Option.some ttlRedis)).2
  { memory := mem2, redis := redis2,
    counters := { rc.counters with sets := rc.counters.sets + 1 } }

/-- ResponseCache.get_or_compute.  compute_fn is modelled as a function
from a collaborator state gamma to either an exception or a value and a
new collaborator state (this captures a compute_fn that, say, increments
a shared counter).  The orchestrator state is returned alongside the
outcome because the mutations made before a compute_fn exception persist
in Python. -/
def ResponseCache.get_or_compute {σ γ ε : Type} (B : Backend σ) (now : ℤ)
    (rc : ResponseCache σ) (key : String)
    (compute : γ → Except ε (PyValue × γ)) (g : γ)
    (ttlMemory : ℤ) (ttlRedis : ℤ) :
    Except ε PyValue × ResponseCache σ × γ :=
  match rc.gocPre B now key ttlMemory with
  | .hit v rc1 => (.ok v, rc1, g)
  | .missCompute rc1 =>
    match compute g with
    | .error e => (.error e, rc1, g)
    | .ok (v, g1) => (.ok v, rc1.gocPost B now key v ttlMemory ttlRedis, g1)

/-- ResponseCache.invalidate: invalidate in both tiers, unconditionally. -/
def ResponseCache.invalidate {σ : Type} (B : Backend σ) (rc : ResponseCache σ)
    (key : String) : ResponseCache σ :=
  let mem1 := rc.memory.invalidate key
  let redis1 := (RedisCache.invalidate B rc.redis key).2
  { rc with memory := mem1, redis := redis1 }

/-- ResponseCache.clear: memory always cleared; redis cleared by pattern
only when a pattern is supplied. -/
def ResponseCache.clear {σ : Type} (B : Backend σ) (rc : ResponseCache σ)
    (pat : Option String) : ResponseCache σ :=
  let mem1 := rc.memory.clear
  match pat with
  | Option.none => { rc with memory := mem1 }
  | Option.some p =>
    let redis1 := (RedisCache.clear_pattern B rc.redis p).2
    { rc with memory := mem1, redis := redis1 }

/-- The observational stats() dict: tier stats, the four counters and the
derived total (the hit-rate percentage string is formatting only). -/
structure StatsView where
  memorySize : Nat
  memoryMaxsize : Nat
  memoryHits : Nat
  redisHits : Nat
  misses : Nat
  sets : Nat
  totalRequests : Nat

/-- ResponseCache.stats. -/
def ResponseCache.stats {σ : Type} (rc : ResponseCache σ) : StatsView :=
  { memorySize := rc.memory.cache.length
    memoryMaxsize := rc.memory.maxsize
    memoryHits := rc.counters.memoryHits
    redisHits := rc.counters.redisHits
    misses := rc.counters.misses
    sets := rc.counters.sets
    totalRequests := rc.counters.memoryHits + rc.counters.redisHits + rc.counters.misses }

/-
  Cooperative-concurrency model of N concurrent get_or_compute calls on
  one key.  The event loop is single-threaded: a task runs uninterrupted
  until it awaits something that suspends.  With the far tier not
  connected, RedisCache.get returns immediately (awaiting a coroutine
  that never awaits does not yield to the loop), so the only suspension
  point inside get_or_compute is "await compute_fn()".  Each task
  therefore executes as two atomic blocks:
    ready  : both tier probes, the miss count, and the start of
             compute_fn (the claim's compute_fn increments the shared
             counter and then suspends);
    waiting: compute_fn resumes with the fixed value v0 and the task
             runs the write-through tail.
  A schedule is the list of task indices in the order the loop runs
  them. -/
inductive TaskSt where
  | ready
  | waiting
  | done (v : PyValue)

/-- Whole-system state of the N-caller scenario: the orchestrator, the
shared counter of the claim's compute_fn, and the per-task states. -/
structure Sys (σ : Type) where
  rc : ResponseCache σ
  counter : Nat
  tasks : List TaskSt

/-- One scheduling step: run task i until its next suspension point. -/
def sysStep {σ : Type} (B : Backend σ) (now : ℤ) (key : String)
    (ttlMemory ttlRedis : ℤ) (v0 : PyValue) (sys : Sys σ) (i : Nat) : Sys σ :=
  match sys.tasks.get? i with
  | Option.none => sys
  | Option.some TaskSt.ready =>
    match sys.rc.gocPre B now key ttlMemory with
    | .hit v rc1 => { sys with rc := rc1, tasks := sys.tasks.set i (TaskSt.done v) }
    | .missCompute rc1 =>
      { rc := rc1, counter := sys.counter + 1, tasks := sys.tasks.set i TaskSt.waiting }
  | Option.some TaskSt.waiting =>
    { sys with rc := sys.rc.gocPost B now key v0 ttlMemory ttlRedis,
               tasks := sys.tasks.set i (TaskSt.done v0) }
  | Option.some (TaskSt.done _) => sys

/-- Run a schedule. -/
def sysRun {σ : Type} (B : Backend σ) (now : ℤ) (key : String)
    (ttlMemory ttlRedis : ℤ) (v0 : PyValue) (sys : Sys σ) (sched : List Nat) : Sys σ :=
  sched.foldl (sysStep B now key ttlMemory ttlRedis v0) sys

/-- A far tier that is not connected (connection failed or absent). -/
def redisDown : RedisState (List (String × String)) :=
  { connected := false, defaultTtl := 3600, backend := [] }

/-- Initial state of the scenario: fresh orchestrator, counter 0, N
callers about to enter get_or_compute. -/
def sysInit (n : Nat) : Sys (List (String × String)) :=
  { rc := ResponseCache.mkFresh redisDown, counter := 0,
    tasks := List.replicate n TaskSt.ready }

/-
  Model of RequestDeduplicator.deduplicate for the two-caller timeout
  scenario, together with the asyncio semantics the source relies on:

  * deduplicate with no pending entry creates a task for
    _execute_with_cleanup, publishes it in _pending_requests, sets
    _request_counts[key] = 0 and awaits the task (caller A).
  * deduplicate with a pending entry increments _request_counts[key] and
    awaits asyncio.wait_for(task, timeout) (caller B, the joiner).
  * asyncio.wait_for semantics on timeout: it CANCELS the awaited future,
    waits for the cancellation to complete, then raises TimeoutError to
    its own caller.  The future here is the single shared task, so the
    shared computation is cancelled: async_fn never finishes, the
    CancelledError runs the finally of _execute_with_cleanup (deleting
    the registry entry and the waiter count), and every other waiter of
    the task - including the original caller awaiting it directly -
    receives CancelledError.
  * if instead the computation finishes first, the task resolves with the
    value, the finally clears the registry, and all waiters receive the
    value. -/
inductive DedupTask where
  | running
  | resolved (v : PyValue)
  | cancelled

/-- What a caller of deduplicate ends up observing. -/
inductive CallerOutcome where
  | pending
  | value (v : PyValue)
  | timeoutError
  | cancelledError

/-- State of the two-caller deduplicate scenario on one key. -/
structure DedupSys where
  registryHasKey : Bool
  requestCount : Option Nat
  task : Option DedupTask
  outcomeA : CallerOutcome
  outcomeB : CallerOutcome
  computeCompletions : Nat

/-- The events of the scenario, in event-loop order. -/
inductive DedupEv where
  | aStart
  | bJoin
  | bTimeout
  | computeFinish

/-- A pending waiter receives the resolution value; a caller that
already errored keeps its error. -/
def resolveOutcome (v0 : PyValue) : CallerOutcome → CallerOutcome
  | .pending => .value v0
  | o => o

/-- One event of the deduplicate scenario. -/
def dedupStep (v0 : PyValue) (s : DedupSys) (e : DedupEv) : DedupSys :=
  match e with
  | .aStart =>
    if s.registryHasKey then s
    else { s with registryHasKey := true, requestCount := Option.some 0,
                  task := Option.some DedupTask.running, outcomeA := .pending }
  | .bJoin =>
    if s.registryHasKey then
      { s with requestCount := Option.some ((s.requestCount.getD 0) + 1),
               outcomeB := .pending }
    else s
  | .bTimeout =>
    match s.task with
    | Option.some DedupTask.running =>
      { s with task := Option.some DedupTask.cancelled,
               registryHasKey := false,
               requestCount := Option.none,
               outcomeB := .timeoutError,
               outcomeA := .cancelledError }
    | _ => s
  | .computeFinish =>
    match s.task with
    | Option.some DedupTask.running =>
      { s with task := Option.some (DedupTask.resolved v0),
               registryHasKey := false,
               requestCount := Option.none,
               computeCompletions := s.computeCompletions + 1,
               outcomeA := resolveOutcome v0 s.outcomeA,
               outcomeB := resolveOutcome v0 s.outcomeB }
    | _ => s

/-- Run a deduplicate scenario. -/
def dedupRun (v0 : PyValue) (s : DedupSys) (evs : List DedupEv) : DedupSys :=
  evs.foldl (dedupStep v0) s

/-- Before any caller arrives. -/
def dedupInit : DedupSys :=
  { registryHasKey := false, requestCount := Option.none, task := Option.none,
    outcomeA := .pending, outcomeB := .pending, computeCompletions := 0 }

/-! Helper lemmas about the Python-dict model. -/

theorem mem_fst_of_lookup {α : Type} (c : List (String × α)) (k : String) (w : α)
    (h : c.lookup k = Option.some w) : k ∈ c.map Prod.fst := by
  induction c with
  | nil => simp [List.lookup] at h
  | cons p rest ih =>
    obtain ⟨k', v'⟩ := p
    by_cases hk : k = k'
    · simp [hk]
    · rw [List.lookup, beq_false_of_ne hk] at h
      simp [ih h]

theorem lookup_dictSet_self {α : Type} (c : List (String × α)) (k : String) (v : α) :
    (dictSet c k v).lookup k = Option.some v := by
  induction c with
  | nil => simp [dictSet, List.lookup]
  | cons p rest ih =>
    obtain ⟨k', v'⟩ := p
    by_cases h : k' = k
    · simp [dictSet, h, List.lookup]
    · rw [dictSet, if_neg h, List.lookup, beq_false_of_ne (Ne.symm h), ih]

theorem lookup_dictSet_ne {α : Type} (c : List (String × α)) (k j : String) (v : α)
    (h : j ≠ k) : (dictSet c k v).lookup j = c.lookup j := by
  induction c with
  | nil => simp [dictSet, List.lookup, beq_false_of_ne h]
  | cons p rest ih =>
    obtain ⟨k', v'⟩ := p
    by_cases hk : k' = k
    · subst hk
      rw [dictSet, if_pos rfl, List.lookup, List.lookup, beq_false_of_ne h]
    · rw [dictSet, if_neg hk, List.lookup, List.lookup, ih]

theorem lookup_dictDel_ne {α : Type} (c : List (String × α)) (k j : String)
    (h : j ≠ k) : (dictDel c k).lookup j = c.lookup j := by
  induction c with
  | nil => simp [dictDel]
  | cons p rest ih =>
    obtain ⟨k', v'⟩ := p
    by_cases hk : k' = k
    · subst hk
      rw [dictDel, if_pos rfl, List.lookup, beq_false_of_ne h]
    · rw [dictDel, if_neg hk, List.lookup, List.lookup, ih]

theorem map_fst_dictDel {α : Type} (c : List (String × α)) (k : String) :
    (dictDel c k).map Prod.fst = (c.map Prod.fst).erase k := by
  induction c with
  | nil => simp [dictDel]
  | cons p rest ih =>
    obtain ⟨k', v'⟩ := p
    by_cases hk : k' = k
    · subst hk
      simp [dictDel, List.erase_cons_head]
    · rw [dictDel, if_neg hk, List.map_cons, List.map_cons,
        List.erase_cons_tail, ih]
      simp [beq_false_of_ne hk]

theorem lookup_dictDel_self {α : Type} (c : List (String × α)) (k : String)
    (hnd : (c.map Prod.fst).Nodup) : (dictDel c k).lookup k = Option.none := by
  induction c with
  | nil => simp [dictDel]
  | cons p rest ih =>
    obtain ⟨k', v'⟩ := p
    rw [List.map_cons, List.nodup_cons] at hnd
    by_cases hk : k' = k
    · subst hk
      rw [dictDel, if_pos rfl]
      cases hl : rest.lookup k' with
      | none => rfl
      | some w => exact absurd (mem_fst_of_lookup rest k' w hl) hnd.1
    · rw [dictDel, if_neg hk, List.lookup, beq_false_of_ne (Ne.symm hk), ih hnd.2]

theorem map_fst_dictSet {α : Type} (c : List (String × α)) (k : String) (v : α) :
    (dictSet c k v).map Prod.fst =
      (if k ∈ c.map Prod.fst then c.map Prod.fst else c.map Prod.fst ++ [k]) := by
  induction c with
  | nil => simp [dictSet]
  | cons p rest ih =>
    obtain ⟨k', v'⟩ := p
    by_cases hk : k' = k
    · subst hk
      simp [dictSet]
    · by_cases hm : k ∈ rest.map Prod.fst <;>
        simp [dictSet, hk, hm, ih, Ne.symm hk]

theorem nodup_fst_dictSet {α : Type} (c : List (String × α)) (k : String) (v : α)
    (hnd : (c.map Prod.fst).Nodup) : ((dictSet c k v).map Prod.fst).Nodup := by
  rw [map_fst_dictSet]
  by_cases hm : k ∈ c.map Prod.fst
  · simpa [hm] using hnd
  · rw [if_neg hm, List.nodup_append]
    refine ⟨hnd, List.nodup_singleton k, ?_⟩
    intro a ha hb
    rw [List.mem_singleton] at hb
    subst hb
    exact hm ha

/-- The eviction loop really enforces the bound: as long as the access
order covers the cache keys, the loop ends with at most maxsize
entries. -/
theorem evict_length_le (maxsize : Nat) :
    ∀ (order : List String) (cache : List (String × MemEntry)),
      (cache.map Prod.fst).Nodup →
      (∀ k, k ∈ cache.map Prod.fst → k ∈ order) →
      ((evict maxsize cache order).1.length ≤ maxsize) := by
  intro order
  induction order with
  | nil =>
    intro cache _ hcov
    have hnil : cache = [] := by
      cases cache with
      | nil => rfl
      | cons p rest => exact absurd (hcov p.1 (by simp)) (by simp)
    subst hnil
    simp [evict]
  | cons lru rest ih =>
    intro cache hnd hcov
    by_cases hlen : cache.length ≤ maxsize
    · simp [evict, hlen]
    · have hnd' : ((dictDel cache lru).map Prod.fst).Nodup := by
        rw [map_fst_dictDel]; exact hnd.erase lru
      have hcov' : ∀ k, k ∈ (dictDel cache lru).map Prod.fst → k ∈ rest := by
        intro k hk
        rw [map_fst_dictDel] at hk
        have hne : k ≠ lru := ((List.Nodup.mem_erase_iff hnd).mp hk).1
        have hmem : k ∈ cache.map Prod.fst := List.mem_of_mem_erase hk
        rcases List.mem_cons.mp (hcov k hmem) with h | h
        · exact absurd h hne
        · exact h
      simpa [evict, hlen] using ih (dictDel cache lru) hnd' hcov'

/-- C7: strict LRU eviction of the near tier.  Any set on a well-formed
near tier leaves at most maxsize entries, by evicting repeatedly from the
least-recently-used end; concretely, with capacity 2, setting a, b, c in
order with no intervening reads evicts a while b and c still hit. -/
theorem C7_lru_eviction (m : MemoryCache) (key : String) (value : PyValue)
    (ttl now : ℤ) (hwf : m.WF) :
    ((m.set key value ttl now).cache.length ≤ m.maxsize)
    ∧ (((((MemoryCache.mkFresh 2).set "a" (PyValue.int 1) 100 0).set
          "b" (PyValue.int 2) 100 1).set "c" (PyValue.int 3) 100 2).get 3 "a").2
        = PyValue.none
    ∧ (((((MemoryCache.mkFresh 2).set "a" (PyValue.int 1) 100 0).set
          "b" (PyValue.int 2) 100 1).set "c" (PyValue.int 3) 100 2).get 3 "b").2
        = PyValue.int 2
    ∧ (((((MemoryCache.mkFresh 2).set "a" (PyValue.int 1) 100 0).set
          "b" (PyValue.int 2) 100 1).set "c" (PyValue.int 3) 100 2).get 3 "c").2
        = PyValue.int 3 := by
  refine ⟨?_, rfl, rfl, rfl⟩
  unfold MemoryCache.set
  by_cases hlen : (dictSet m.cache key (value, now, ttl)).length ≤ m.maxsize
  · simp [hlen]
  · simp only [hlen, if_false]
    apply evict_length_le
    · exact nodup_fst_dictSet m.cache key (value, now, ttl) hwf.1
    · intro k hk
      rw [map_fst_dictSet] at hk
      have hcase : k ∈ m.cache.map Prod.fst ∨ k = key := by
        by_cases hm : key ∈ m.cache.map Prod.fst
        · rw [if_pos hm] at hk; exact Or.inl hk
        · rw [if_neg hm] at hk
          rcases List.mem_append.mp hk with h | h
          · exact Or.inl h
          · exact Or.inr (List.mem_singleton.mp h)
      rcases hcase with h | h
      · by_cases hkey : k = key
        · subst hkey
          exact List.mem_append.mpr (Or.inr (by simp))
        · have hko : k ∈ m.accessOrder := (hwf.2.2 k).mp h
          exact List.mem_append.mpr (Or.inl ((List.mem_erase_of_ne hkey).mpr hko))
      · subst h
        exact List.mem_append.mpr (Or.inr (by simp))

/-- C7 witness: the general bound applied to a concrete well-formed
near tier. -/
theorem C7_lru_eviction_witness :
    (MemoryCache.mkFresh 2).WF ∧
      (((MemoryCache.mkFresh 2).set "k" (PyValue.int 1) 100 0).cache.length ≤
        (MemoryCache.mkFresh 2).maxsize) :=
  ⟨by simp [MemoryCache.WF, MemoryCache.mkFresh],
   (C7_lru_eviction (MemoryCache.mkFresh 2) "k" (PyValue.int 1) 100 0
      (by simp [MemoryCache.WF, MemoryCache.mkFresh])).1⟩

/-- C8: lazy TTL expiry of the near tier.  get misses on an absent key;
on a present key whose age now - timestamp strictly exceeds its ttl it
deletes the entry and misses; otherwise it moves the key to the
most-recently-used end and returns the stored value.  Concretely (time in
tenths of a second) set k with ttl 0.1s: an immediate get hits, a get
0.2s later misses. -/
theorem C8_lazy_ttl_expiry (m : MemoryCache) (now : ℤ) (key : String) :
    (m.cache.lookup key = Option.none → m.get now key = (m, PyValue.none))
    ∧ (∀ v ts ttl, m.cache.lookup key = Option.some (v, ts, ttl) → now - ts > ttl →
        m.get now key =
          ({ m with cache := dictDel m.cache key,
                    accessOrder := m.accessOrder.erase key }, PyValue.none))
    ∧ (∀ v ts ttl, m.cache.lookup key = Option.some (v, ts, ttl) → ¬ now - ts > ttl →
        m.get now key =
          ({ m with accessOrder := m.accessOrder.erase key ++ [key] }, v))
    ∧ (((MemoryCache.mkFresh 100).set "k" (PyValue.str "v") 1 0).get 0 "k").2
        = PyValue.str "v"
    ∧ (((MemoryCache.mkFresh 100).set "k" (PyValue.str "v") 1 0).get 2 "k").2
        = PyValue.none := by
  refine ⟨?_, ?_, ?_, rfl, rfl⟩
  · intro h
    simp [MemoryCache.get, h]
  · intro v ts ttl h hex
    simp [MemoryCache.get, h, hex]
  · intro v ts ttl h hex
    simp [MemoryCache.get, h, hex]

/-- C8 witness: the three branches applied at concrete states. -/
theorem C8_lazy_ttl_expiry_witness :
    ((MemoryCache.mkFresh 100).cache.lookup "k" = Option.none ∧
      (MemoryCache.mkFresh 100).get 0 "k" = (MemoryCache.mkFresh 100, PyValue.none))
    ∧ (((MemoryCache.mkFresh 100).set "k" (PyValue.str "v") 1 0).get 2 "k" =
        ({ (MemoryCache.mkFresh 100).set "k" (PyValue.str "v") 1 0 with
            cache := dictDel ((MemoryCache.mkFresh 100).set "k" (PyValue.str "v") 1 0).cache "k",
            accessOrder := (((MemoryCache.mkFresh 100).set "k" (PyValue.str "v") 1 0).accessOrder).erase "k" },
          PyValue.none)) :=
  ⟨⟨rfl, (C8_lazy_ttl_expiry (MemoryCache.mkFresh 100) 0 "k").1 rfl⟩,
   ((C8_lazy_ttl_expiry ((MemoryCache.mkFresh 100).set "k" (PyValue.str "v") 1 0) 2 "k").2.1
      (PyValue.str "v") 0 1 rfl (by decide))⟩

/-- A concrete backend whose every call raises. -/
def failBackend : Backend Unit where
  rawGet := fun _ _ => .error ()
  rawSetex := fun _ _ _ _ => .error ()
  rawDelete := fun _ _ => .error ()
  rawScan := fun _ _ => .error ()

/-- C3: far-tier failure isolation.  When the far tier is not connected,
every operation returns its sentinel (None / False / False / 0).  When
the single underlying call an operation makes raises, that operation
returns its sentinel instead of propagating: a failing GET, a failing
SETEX, a failing DEL, a failing SCAN, and a DEL failing after a
successful SCAN are each caught; a deserialization failure on get and a
serialization failure on set are likewise a miss / a False.  Every
operation is a total function into its result type: no exception can
reach the orchestrator. -/
theorem C3_far_tier_failure_isolation {σ : Type} (B : Backend σ)
    (st : RedisState σ) (key : String) (value : PyValue) (ttl : Option ℤ)
    (pat : String) :
    (st.connected = false →
      RedisCache.get B st key = PyValue.none
      ∧ (RedisCache.set B st key value ttl).1 = false
      ∧ (RedisCache.invalidate B st key).1 = false
      ∧ (RedisCache.clear_pattern B st pat).1 = 0)
    ∧ (B.rawGet st.backend key = .error () → RedisCache.get B st key = PyValue.none)
    ∧ (∀ s, B.rawGet st.backend key = .ok (Option.some s) → loads s = .error () →
        RedisCache.get B st key = PyValue.none)
    ∧ (dumps value = .error () → (RedisCache.set B st key value ttl).1 = false)
    ∧ (∀ d, dumps value = .ok d →
        B.rawSetex st.backend key
          (match ttl with
           | Option.none => st.defaultTtl
           | Option.some t => if t = 0 then st.defaultTtl else t) d = .error () →
        (RedisCache.set B st key value ttl).1 = false)
    ∧ (B.rawDelete st.backend [key] = .error () →
        (RedisCache.invalidate B st key).1 = false)
    ∧ (B.rawScan st.backend pat = .error () →
        (RedisCache.clear_pattern B st pat).1 = 0)
    ∧ (∀ ks, B.rawScan st.backend pat = .ok ks → ks.isEmpty = false →
        B.rawDelete st.backend ks = .error () →
        (RedisCache.clear_pattern B st pat).1 = 0) := by
  by_cases hconn : st.connected = false
  · refine ⟨fun _ => ?_, fun _ => ?_, fun _ _ _ => ?_, fun _ => ?_, fun _ _ _ => ?_,
      fun _ => ?_, fun _ => ?_, fun _ _ _ _ => ?_⟩ <;>
      simp [RedisCache.get, RedisCache.set, RedisCache.invalidate,
        RedisCache.clear_pattern, hconn]
  · refine ⟨fun hc => absurd hc hconn, ?_, ?_, ?_, ?_, ?_, ?_, ?_⟩
    · intro hg
      simp [RedisCache.get, RedisCache.getBody, hconn, hg, Bind.bind, Except.bind]
    · intro s hs hloads
      simp [RedisCache.get, RedisCache.getBody, hconn, hs, hloads, Bind.bind,
        Except.bind]
    · intro hdump
      simp [RedisCache.set, RedisCache.setBody, hconn, hdump, Bind.bind, Except.bind]
    · intro d hdump hset
      simp [RedisCache.set, RedisCache.setBody, hconn, hdump, hset, Bind.bind,
        Except.bind]
    · intro hdel
      simp [RedisCache.invalidate, hconn, hdel]
    · intro hscan
      simp [RedisCache.clear_pattern, hconn, hscan, Bind.bind, Except.bind]
    · intro ks hscan hne hdel
      simp [RedisCache.clear_pattern, hconn, hscan, hne, hdel, Bind.bind, Except.bind]

/-- C3 witness: the failing backend, a corrupt stored value, and a
non-serializable value, each at concrete inputs. -/
theorem C3_far_tier_failure_isolation_witness :
    ((false : Bool) = false
      ∧ (RedisCache.get failBackend ⟨false, 3600, ()⟩ "k" = PyValue.none
        ∧ (RedisCache.set failBackend ⟨false, 3600, ()⟩ "k" (PyValue.int 1) Option.none).1 = false
        ∧ (RedisCache.invalidate failBackend ⟨false, 3600, ()⟩ "k").1 = false
        ∧ (RedisCache.clear_pattern failBackend ⟨false, 3600, ()⟩ "p").1 = 0))
    ∧ RedisCache.get failBackend ⟨true, 3600, ()⟩ "k" = PyValue.none
    ∧ RedisCache.get goodBackend ⟨true, 3600, [("k", "not json")]⟩ "k" = PyValue.none
    ∧ (RedisCache.set goodBackend ⟨true, 3600, []⟩ "k" (PyValue.obj "set") Option.none).1
        = false
    ∧ (RedisCache.set goodBackend ⟨true, 3600, []⟩ "k" (PyValue.int 1)
        (Option.some (-5))).1 = false
    ∧ (RedisCache.invalidate failBackend ⟨true, 3600, ()⟩ "k").1 = false
    ∧ (RedisCache.clear_pattern failBackend ⟨true, 3600, ()⟩ "p").1 = 0 :=
  ⟨⟨rfl, (C3_far_tier_failure_isolation failBackend ⟨false, 3600, ()⟩ "k" (PyValue.int 1)
      Option.none "p").1 rfl⟩,
   (C3_far_tier_failure_isolation failBackend ⟨true, 3600, ()⟩ "k" (PyValue.int 1)
      Option.none "p").2.1 rfl,
   (C3_far_tier_failure_isolation goodBackend ⟨true, 3600, [("k", "not json")]⟩ "k"
      (PyValue.int 1) Option.none "p").2.2.1 "not json" rfl rfl,
   (C3_far_tier_failure_isolation goodBackend ⟨true, 3600, []⟩ "k"
      (PyValue.obj "set") Option.none "p").2.2.2.1 rfl,
   (C3_far_tier_failure_isolation goodBackend ⟨true, 3600, []⟩ "k"
      (PyValue.int 1) (Option.some (-5)) "p").2.2.2.2.1 "1" rfl rfl,
   (C3_far_tier_failure_isolation failBackend ⟨true, 3600, ()⟩ "k" (PyValue.int 1)
      Option.none "p").2.2.2.2.2.1 rfl,
   (C3_far_tier_failure_isolation failBackend ⟨true, 3600, ()⟩ "k" (PyValue.int 1)
      Option.none "p").2.2.2.2.2.2.1 rfl⟩

/-- A near-tier get that returned a miss still misses immediately
afterwards (the state left behind by the get - unchanged, or with the
expired entry deleted, or with a stored None refreshed in the recency
order - cannot turn the same probe into a hit). -/
theorem memory_get_miss_again (m : MemoryCache) (now : ℤ) (key : String)
    (hnd : (m.cache.map Prod.fst).Nodup)
    (h : (m.get now key).2 = PyValue.none) :
    ((m.get now key).1.get now key).2 = PyValue.none := by
  cases hl : m.cache.lookup key with
  | none => simp [MemoryCache.get, hl]
  | some entry =>
    obtain ⟨v, ts, ttl⟩ := entry
    by_cases hex : now - ts > ttl
    · simp [MemoryCache.get, hl, hex, lookup_dictDel_self _ _ hnd]
    · have hv : v = PyValue.none := by simpa [MemoryCache.get, hl, hex] using h
      simp [MemoryCache.get, hl, hex, hv]

/-- When both tiers miss, the pre-compute part of get_or_compute counts
the miss and proceeds to the computation. -/
theorem gocPre_miss {σ : Type} (B : Backend σ) (now : ℤ) (rc : ResponseCache σ)
    (key : String) (ttlM : ℤ)
    (hmem : (rc.memory.get now key).2 = PyValue.none)
    (hredis : RedisCache.get B rc.redis key = PyValue.none) :
    rc.gocPre B now key ttlM = .missCompute
      { rc with memory := (rc.memory.get now key).1,
                counters := { rc.counters with misses := rc.counters.misses + 1 } } := by
  simp only [ResponseCache.gocPre, hmem, hredis]

/-- C4: compute-failure atomicity.  If both tiers miss and compute_fn
raises, get_or_compute propagates that same error, leaves the far tier
untouched and both tiers still missing on the key, and a subsequent call
for the key runs compute again (the miss counter advances once per
call). -/
theorem C4_compute_failure_atomicity {σ γ ε : Type} (B : Backend σ) (now : ℤ)
    (rc : ResponseCache σ) (key : String)
    (compute : γ → Except ε (PyValue × γ)) (g : γ) (ttlM ttlR : ℤ) (e : ε)
    (hnd : (rc.memory.cache.map Prod.fst).Nodup)
    (hmem : (rc.memory.get now key).2 = PyValue.none)
    (hredis : RedisCache.get B rc.redis key = PyValue.none)
    (hc : compute g = .error e) :
    (rc.get_or_compute B now key compute g ttlM ttlR).1 = .error e
    ∧ (rc.get_or_compute B now key compute g ttlM ttlR).2.1.redis = rc.redis
    ∧ ((rc.get_or_compute B now key compute g ttlM ttlR).2.1.memory.get now key).2
        = PyValue.none
    ∧ RedisCache.get B (rc.get_or_compute B now key compute g ttlM ttlR).2.1.redis key
        = PyValue.none
    ∧ (∀ (compute2 : γ → Except ε (PyValue × γ)) (g2 : γ) (v2 : PyValue) (g2' : γ),
        compute2 g2 = .ok (v2, g2') →
        ((rc.get_or_compute B now key compute g ttlM ttlR).2.1.get_or_compute B now key
            compute2 g2 ttlM ttlR).1 = .ok v2
        ∧ ((rc.get_or_compute B now key compute g ttlM ttlR).2.1.get_or_compute B now key
            compute2 g2 ttlM ttlR).2.1.counters.misses = rc.counters.misses + 2) := by
  have hpre := gocPre_miss B now rc key ttlM hmem hredis
  have hrun : rc.get_or_compute B now key compute g ttlM ttlR =
      (.error e,
       { rc with memory := (rc.memory.get now key).1,
                 counters := { rc.counters with misses := rc.counters.misses + 1 } }, g) := by
    unfold ResponseCache.get_or_compute
    rw [hpre, hc]
  rw [hrun]
  have hmem2 : (((rc.memory.get now key).1).get now key).2 = PyValue.none :=
    memory_get_miss_again rc.memory now key hnd hmem
  refine ⟨rfl, rfl, hmem2, hredis, ?_⟩
  intro compute2 g2 v2 g2' hc2
  have hpre2 := gocPre_miss B now
    ({ rc with memory := (rc.memory.get now key).1,
               counters := { rc.counters with misses := rc.counters.misses + 1 } })
    key ttlM hmem2 hredis
  constructor
  · unfold ResponseCache.get_or_compute
    rw [hpre2, hc2]
  · unfold ResponseCache.get_or_compute
    rw [hpre2, hc2]
    simp [ResponseCache.gocPost]

/-- C4 witness: a fresh orchestrator with the far tier down, and a
compute_fn that raises. -/
theorem C4_compute_failure_atomicity_witness :
    ((ResponseCache.mkFresh redisDown).memory.cache.map Prod.fst).Nodup ∧
    ((ResponseCache.mkFresh redisDown).get_or_compute goodBackend 0 "k"
        (fun _ : Nat => (Except.error "boom" : Except String (PyValue × Nat))) 0 300 3600).1
      = Except.error "boom" :=
  ⟨by simp [ResponseCache.mkFresh, MemoryCache.mkFresh],
   (C4_compute_failure_atomicity goodBackend 0 (ResponseCache.mkFresh redisDown) "k"
      (fun _ : Nat => (Except.error "boom" : Except String (PyValue × Nat))) 0 300 3600 "boom"
      (by simp [ResponseCache.mkFresh, MemoryCache.mkFresh]) rfl rfl rfl).1⟩

/-- Every binding of a key named in a DEL disappears from the healthy
far-tier store. -/
theorem lookup_removeKeys (store : List (String × String)) (ks : List String)
    (k : String) (hk : ks.contains k = true) :
    (removeKeys store ks).lookup k = Option.none := by
  induction store with
  | nil => rfl
  | cons p rest ih =>
    obtain ⟨k', v'⟩ := p
    cases hin : ks.contains k' with
    | true =>
      rw [removeKeys, if_pos hin]
      exact ih
    | false =>
      have hne : k ≠ k' := by
        intro he
        rw [he, hin] at hk
        exact Bool.false_ne_true hk
      rw [removeKeys, if_neg (fun hc => Bool.false_ne_true (hin ▸ hc)),
        List.lookup, beq_false_of_ne hne]
      exact ih

/-- C9: invalidate covers both tiers unconditionally.  For any
orchestrator state over a healthy far-tier store and any key - present or
not, previously set or not - invalidate removes the near-tier entry and
deletes the key from the far store (when connected), and afterwards both
the near-tier get and the far-tier get miss. -/
theorem C9_invalidate_both_tiers (store : List (String × String))
    (mem : MemoryCache) (cnt : Stats) (conn : Bool) (dttl : ℤ) (key : String)
    (now : ℤ) (hnd : (mem.cache.map Prod.fst).Nodup) :
    (((ResponseCache.invalidate goodBackend ⟨mem, ⟨conn, dttl, store⟩, cnt⟩ key).memory.get
        now key).2 = PyValue.none)
    ∧ ((ResponseCache.invalidate goodBackend ⟨mem, ⟨conn, dttl, store⟩, cnt⟩ key).memory.cache.lookup
        key = Option.none)
    ∧ (RedisCache.get goodBackend
        (ResponseCache.invalidate goodBackend ⟨mem, ⟨conn, dttl, store⟩, cnt⟩ key).redis key
        = PyValue.none)
    ∧ (conn = true →
        (ResponseCache.invalidate goodBackend ⟨mem, ⟨conn, dttl, store⟩, cnt⟩ key).redis.backend.lookup
          key = Option.none) := by
  have hdel : (dictDel mem.cache key).lookup key = Option.none :=
    lookup_dictDel_self mem.cache key hnd
  cases conn with
  | false =>
    refine ⟨?_, ?_, ?_, ?_⟩
    · simp [ResponseCache.invalidate, MemoryCache.invalidate, RedisCache.invalidate,
        MemoryCache.get, hdel]
    · simpa [ResponseCache.invalidate, MemoryCache.invalidate, RedisCache.invalidate]
        using hdel
    · simp [ResponseCache.invalidate, RedisCache.invalidate, RedisCache.get]
    · intro h
      exact absurd h (by simp)
  | true =>
    have hback : (ResponseCache.invalidate goodBackend
        ⟨mem, ⟨true, dttl, store⟩, cnt⟩ key).redis =
        ⟨true, dttl, removeKeys store [key]⟩ := rfl
    have hk1 : ([key].contains key) = true := by simp
    refine ⟨?_, ?_, ?_, fun _ => ?_⟩
    · simp [ResponseCache.invalidate, MemoryCache.invalidate, RedisCache.invalidate,
        MemoryCache.get, hdel]
    · simpa [ResponseCache.invalidate, MemoryCache.invalidate, RedisCache.invalidate]
        using hdel
    · rw [hback]
      simp [RedisCache.get, RedisCache.getBody, goodBackend, Bind.bind, Except.bind,
        pure, Except.pure, lookup_removeKeys store [key] key hk1]
    · rw [hback]
      exact lookup_removeKeys store [key] key hk1

/-- C9 witness: a near tier populated by a set, a far store holding the
serialized value, then invalidate - both tiers miss. -/
theorem C9_invalidate_both_tiers_witness :
    ((((MemoryCache.mkFresh 100).set "k" (PyValue.str "v") 300 0).cache.map Prod.fst).Nodup)
    ∧ (((ResponseCache.invalidate goodBackend
          ⟨(MemoryCache.mkFresh 100).set "k" (PyValue.str "v") 300 0,
            ⟨true, 3600, [("k", "\"v\"")]⟩, ⟨0, 0, 0, 0⟩⟩ "k").memory.get 0 "k").2
        = PyValue.none)
    ∧ (RedisCache.get goodBackend
        (ResponseCache.invalidate goodBackend
          ⟨(MemoryCache.mkFresh 100).set "k" (PyValue.str "v") 300 0,
            ⟨true, 3600, [("k", "\"v\"")]⟩, ⟨0, 0, 0, 0⟩⟩ "k").redis "k"
        = PyValue.none) :=
  have hnd : (((MemoryCache.mkFresh 100).set "k" (PyValue.str "v") 300 0).cache.map
      Prod.fst).Nodup := by
    simp [MemoryCache.mkFresh, MemoryCache.set, dictSet, evict]
  ⟨hnd,
   (C9_invalidate_both_tiers [("k", "\"v\"")]
      ((MemoryCache.mkFresh 100).set "k" (PyValue.str "v") 300 0)
      ⟨0, 0, 0, 0⟩ true 3600 "k" 0 hnd).1,
   (C9_invalidate_both_tiers [("k", "\"v\"")]
      ((MemoryCache.mkFresh 100).set "k" (PyValue.str "v") 300 0)
      ⟨0, 0, 0, 0⟩ true 3600 "k" 0 hnd).2.2.1⟩

/-- The compute_fn of the None-value scenario: returns Python None and
counts its invocations in the collaborator state. -/
def c10Compute : Nat → Except Unit (PyValue × Nat) :=
  fun n => .ok (PyValue.none, n + 1)

/-- The orchestrator state after the first get_or_compute of the
None-value scenario: None cached in both tiers ("null" in the far store),
one miss, one set. -/
def c10State1 (dttl now ttlM : ℤ) (key : String) : ResponseCache (List (String × String)) :=
  { memory := { maxsize := 100, cache := [(key, (PyValue.none, now, ttlM))],
                accessOrder := [key] },
    redis := { connected := true, defaultTtl := dttl, backend := [(key, "null")] },
    counters := { memoryHits := 0, redisHits := 0, misses := 1, sets := 1 } }

/-- C10: a None value is never served from cache.  get_or_compute tests
hits by "is not None", so a compute_fn returning None has its None
written through to both tiers (serialized as "null" in the far tier), yet
a subsequent get_or_compute for the key treats both tiers as misses,
counts another miss, and invokes compute_fn again. -/
theorem C10_none_never_served (dttl now ttlM ttlR : ℤ) (key : String) (g : Nat)
    (hM : 0 ≤ ttlM) (hR : 0 < ttlR) :
    ((ResponseCache.mkFresh ⟨true, dttl, []⟩).get_or_compute goodBackend now key
        c10Compute g ttlM ttlR)
      = (.ok PyValue.none, c10State1 dttl now ttlM key, g + 1)
    ∧ (c10State1 dttl now ttlM key).memory.cache.lookup key
        = Option.some (PyValue.none, now, ttlM)
    ∧ (c10State1 dttl now ttlM key).redis.backend.lookup key = Option.some "null"
    ∧ ((c10State1 dttl now ttlM key).get_or_compute goodBackend now key
          c10Compute (g + 1) ttlM ttlR).1 = .ok PyValue.none
    ∧ ((c10State1 dttl now ttlM key).get_or_compute goodBackend now key
          c10Compute (g + 1) ttlM ttlR).2.2 = g + 2
    ∧ ((c10State1 dttl now ttlM key).get_or_compute goodBackend now key
          c10Compute (g + 1) ttlM ttlR).2.1.counters.misses = 2 := by
  have hmem0 : ((ResponseCache.mkFresh
      (⟨true, dttl, []⟩ : RedisState (List (String × String)))).memory.get now key).2
      = PyValue.none := by
    simp [ResponseCache.mkFresh, MemoryCache.mkFresh, MemoryCache.get, List.lookup]
  have hredis0 : RedisCache.get goodBackend
      (⟨true, dttl, []⟩ : RedisState (List (String × String))) key = PyValue.none := by
    simp [RedisCache.get, RedisCache.getBody, goodBackend, List.lookup, Bind.bind,
      Except.bind, pure, Except.pure]
  have hpre0 := gocPre_miss goodBackend now
    (ResponseCache.mkFresh (⟨true, dttl, []⟩ : RedisState (List (String × String))))
    key ttlM hmem0 hredis0
  have hR0 : ¬ ttlR = 0 := by omega
  have hRle : ¬ ttlR ≤ 0 := by omega
  have h1 : ((ResponseCache.mkFresh
      (⟨true, dttl, []⟩ : RedisState (List (String × String)))).get_or_compute
        goodBackend now key c10Compute g ttlM ttlR)
      = (.ok PyValue.none, c10State1 dttl now ttlM key, g + 1) := by
    unfold ResponseCache.get_or_compute
    rw [hpre0]
    simp only [c10Compute]
    simp [ResponseCache.gocPost, ResponseCache.mkFresh, MemoryCache.mkFresh,
      MemoryCache.get, MemoryCache.set, dictSet, evict, RedisCache.set,
      RedisCache.setBody, goodBackend, hR0, hRle, Bind.bind, Except.bind,
      pure, Except.pure, c10State1, List.lookup,
      show dumps PyValue.none = Except.ok "null" from rfl]
  have hmem1 : ((c10State1 dttl now ttlM key).memory.get now key).2 = PyValue.none := by
    have hlt : ¬ ttlM < 0 := by omega
    simp [c10State1, MemoryCache.get, List.lookup, hlt]
  have hredis1 : RedisCache.get goodBackend (c10State1 dttl now ttlM key).redis key
      = PyValue.none := by
    simp [c10State1, RedisCache.get, RedisCache.getBody, goodBackend, List.lookup,
      Bind.bind, Except.bind, pure, Except.pure,
      show loads "null" = Except.ok PyValue.none from rfl]
  have hpre1 := gocPre_miss goodBackend now (c10State1 dttl now ttlM key)
    key ttlM hmem1 hredis1
  refine ⟨h1, by simp [c10State1, List.lookup], by simp [c10State1, List.lookup], ?_, ?_, ?_⟩
  · unfold ResponseCache.get_or_compute
    rw [hpre1]
    simp [c10Compute]
  · unfold ResponseCache.get_or_compute
    rw [hpre1]
    simp [c10Compute]
  · unfold ResponseCache.get_or_compute
    rw [hpre1]
    simp [c10Compute, ResponseCache.gocPost, c10State1]

/-- C10 witness: the scenario at concrete inputs. -/
theorem C10_none_never_served_witness :
    (0 : ℤ) ≤ 300 ∧ (0 : ℤ) < 3600 ∧
    ((ResponseCache.mkFresh ⟨true, 3600, []⟩).get_or_compute goodBackend 0 "k"
        c10Compute 0 300 3600)
      = (.ok PyValue.none, c10State1 3600 0 300 "k", 1) :=
  ⟨by decide, by decide,
   (C10_none_never_served 3600 0 300 3600 "k" 0 (by decide) (by decide)).1⟩

mutual
/-- json.dumps can serialize the value (no raw Python object inside). -/
def serializable : PyValue → Bool
  | .none => true
  | .bool _ => true
  | .int _ => true
  | .str _ => true
  | .list xs => serializableList xs
  | .dict es => serializableEntries es
  | .obj _ => false

/-- Serializability of every element of a JSON array. -/
def serializableList : List PyValue → Bool
  | [] => true
  | v :: vs => serializable v && serializableList vs

/-- Serializability of every value of a JSON object. -/
def serializableEntries : List (String × PyValue) → Bool
  | [] => true
  | (_, v) :: es => serializable v && serializableEntries es
end

mutual
/-- The canonical serialization succeeds on every serializable value. -/
theorem dumpsSorted_ok : ∀ (v : PyValue), serializable v = true →
    ∃ s, dumpsSorted v = .ok s
  | .none, _ => ⟨"null", rfl⟩
  | .bool true, _ => ⟨"true", rfl⟩
  | .bool false, _ => ⟨"false", rfl⟩
  | .int n, _ => ⟨toString n, rfl⟩
  | .str s, _ => ⟨jsonQuote s, rfl⟩
  | .list xs, hs => by
    obtain ⟨l, hl⟩ := dumpsSortedArr_ok xs (by simpa [serializable] using hs)
    refine ⟨"[" ++ String.intercalate ", " l ++ "]", ?_⟩
    simp [dumpsSorted, hl, Bind.bind, Except.bind, pure, Except.pure]
  | .dict es, hs => by
    obtain ⟨l, hl⟩ := dumpsSortedEntries_ok es (by simpa [serializable] using hs)
    refine ⟨"\x7b" ++ String.intercalate ", " ((sortByKey l).map
      (fun kv => jsonQuote kv.1 ++ ": " ++ kv.2)) ++ "\x7d", ?_⟩
    simp [dumpsSorted, hl, Bind.bind, Except.bind, pure, Except.pure]

/-- Array-element rendering succeeds on serializable elements. -/
theorem dumpsSortedArr_ok : ∀ (xs : List PyValue), serializableList xs = true →
    ∃ l, dumpsSortedArr xs = .ok l
  | [], _ => ⟨[], rfl⟩
  | v :: vs, hs => by
    have hv : serializable v = true := by
      have hh := hs
      simp [serializableList, Bool.and_eq_true] at hh
      exact hh.1
    have hvs : serializableList vs = true := by
      have hh := hs
      simp [serializableList, Bool.and_eq_true] at hh
      exact hh.2
    obtain ⟨s, hsv⟩ := dumpsSorted_ok v hv
    obtain ⟨l, hl⟩ := dumpsSortedArr_ok vs hvs
    refine ⟨s :: l, ?_⟩
    simp [dumpsSortedArr, hsv, hl, Bind.bind, Except.bind, pure, Except.pure]

/-- Object-entry rendering succeeds on serializable entry values. -/
theorem dumpsSortedEntries_ok : ∀ (es : List (String × PyValue)),
    serializableEntries es = true → ∃ l, dumpsSortedEntries es = .ok l
  | [], _ => ⟨[], rfl⟩
  | (k, v) :: es, hs => by
    have hv : serializable v = true := by
      have hh := hs
      simp [serializableEntries, Bool.and_eq_true] at hh
      exact hh.1
    have hes : serializableEntries es = true := by
      have hh := hs
      simp [serializableEntries, Bool.and_eq_true] at hh
      exact hh.2
    obtain ⟨s, hsv⟩ := dumpsSorted_ok v hv
    obtain ⟨l, hl⟩ := dumpsSortedEntries_ok es hes
    refine ⟨(k, s) :: l, ?_⟩
    simp [dumpsSortedEntries, hsv, hl, Bind.bind, Except.bind, pure, Except.pure]
end

/-- C5 counterexample: the claim quantifies over every argument, but a
positional argument json cannot serialize (a Python set, say) makes
CacheKey.generate raise TypeError from json.dumps inside hash_data. -/
theorem C5_key_builder_totality_counterexample :
    CacheKey.generate id "p" [PyValue.obj "set"] [] = .error () := rfl

/-- C5 amended: CacheKey.generate returns a key - raising nothing - for
every prefix, every tuple of JSON-serializable positional arguments and
every mapping of JSON-serializable named arguments; it reads no state and
has no side effects (in this embedding it is literally a function of its
inputs).  On a non-JSON-serializable argument json.dumps raises, so
totality holds exactly on the serializable fragment. -/
theorem C5_key_builder_totality_amended (h : String → String) (pre : String)
    (args : List PyValue) (kwargs : List (String × PyValue))
    (hargs : ∀ a ∈ args, serializable a = true)
    (hkw : ∀ kv ∈ kwargs, serializable kv.2 = true) :
    ∃ s, CacheKey.generate h pre args kwargs = .ok s := by
  have hargParts : ∀ (l : List PyValue), (∀ a ∈ l, serializable a = true) →
      ∃ parts, mapE (CacheKey.argPart h) l = .ok parts := by
    intro l
    induction l with
    | nil => exact fun _ => ⟨[], rfl⟩
    | cons a rest ih =>
      intro hl
      obtain ⟨parts, hparts⟩ := ih (fun x hx => hl x (List.mem_cons_of_mem a hx))
      have hhead : ∃ p, CacheKey.argPart h a = .ok p := by
        cases hp : CacheKey.isPrimitive a with
        | true => exact ⟨CacheKey.pyStr a, by simp [CacheKey.argPart, hp]⟩
        | false =>
          obtain ⟨s, hshow⟩ := dumpsSorted_ok a (hl a (List.mem_cons_self a rest))
          exact ⟨h s, by simp [CacheKey.argPart, hp, CacheKey.hash_data, hshow,
            Except.map]⟩
      obtain ⟨p, hp⟩ := hhead
      refine ⟨p :: parts, ?_⟩
      simp [mapE, hp, hparts, Bind.bind, Except.bind, pure, Except.pure]
  have hkwParts : ∀ (l : List (String × PyValue)), (∀ kv ∈ l, serializable kv.2 = true) →
      ∃ parts, mapE (CacheKey.kwPart h) l = .ok parts := by
    intro l
    induction l with
    | nil => exact fun _ => ⟨[], rfl⟩
    | cons kv rest ih =>
      intro hl
      obtain ⟨parts, hparts⟩ := ih (fun x hx => hl x (List.mem_cons_of_mem kv hx))
      have hhead : ∃ p, CacheKey.kwPart h kv = .ok p := by
        cases hp : CacheKey.isPrimitive kv.2 with
        | true => exact ⟨kv.1 ++ "=" ++ CacheKey.pyStr kv.2, by simp [CacheKey.kwPart, hp]⟩
        | false =>
          obtain ⟨s, hshow⟩ := dumpsSorted_ok kv.2 (hl kv (List.mem_cons_self kv rest))
          exact ⟨kv.1 ++ "=" ++ h s, by simp [CacheKey.kwPart, hp, CacheKey.hash_data,
            hshow, Except.map, Bind.bind, Except.bind, pure, Except.pure]⟩
      obtain ⟨p, hp⟩ := hhead
      refine ⟨p :: parts, ?_⟩
      simp [mapE, hp, hparts, Bind.bind, Except.bind, pure, Except.pure]
  obtain ⟨aps, haps⟩ := hargParts args hargs
  obtain ⟨kps, hkps⟩ := hkwParts (sortByKey kwargs)
    (fun kv hkv => hkw kv ((List.perm_insertionSort keyLe kwargs).mem_iff.mp hkv))
  refine ⟨String.intercalate ":" ((pre :: (aps ++ kps)).map CacheKey.normalize), ?_⟩
  simp [CacheKey.generate, haps, hkps, Bind.bind, Except.bind, pure, Except.pure]

/-- C5 witness: the amended totality at concrete serializable inputs. -/
theorem C5_key_builder_totality_amended_witness :
    (∀ a ∈ [PyValue.dict [("b", PyValue.int 2)]], serializable a = true)
    ∧ (∀ kv ∈ [("q", PyValue.str "x")], serializable (Prod.snd kv) = true)
    ∧ ∃ s, CacheKey.generate id "p" [PyValue.dict [("b", PyValue.int 2)]]
        [("q", PyValue.str "x")] = .ok s :=
  ⟨by decide, by decide,
   C5_key_builder_totality_amended id "p" [PyValue.dict [("b", PyValue.int 2)]]
     [("q", PyValue.str "x")] (by decide) (by decide)⟩

/-! Order properties of the Python string comparison, and uniqueness of
the sorted key order. -/

theorem char_eq_of_toNat_eq {a b : Char} (h : a.toNat = b.toNat) : a = b := by
  have hv : a.val = b.val := UInt32.toNat.inj h
  exact Char.eq_of_val_eq hv

theorem charsLe_total : ∀ as bs, charsLe as bs = true ∨ charsLe bs as = true
  | [], _ => Or.inl rfl
  | _ :: _, [] => Or.inr rfl
  | a :: as, b :: bs => by
    by_cases h1 : a.toNat < b.toNat
    · exact Or.inl (by simp [charsLe, h1])
    · by_cases h2 : b.toNat < a.toNat
      · exact Or.inr (by simp [charsLe, h2])
      · rcases charsLe_total as bs with h | h
        · exact Or.inl (by simp [charsLe, h1, h2, h])
        · exact Or.inr (by simp [charsLe, h2, h1, h])

/-- Splits the inductive step of a lexicographic comparison. -/
theorem charsLe_cons_iff (a b : Char) (as bs : List Char) :
    charsLe (a :: as) (b :: bs) = true ↔
      (a.toNat < b.toNat ∨ (a.toNat = b.toNat ∧ charsLe as bs = true)) := by
  by_cases h1 : a.toNat < b.toNat
  · simp [charsLe, h1]
  · by_cases h2 : b.toNat < a.toNat
    · simp [charsLe, h1, h2]
      omega
    · have he : a.toNat = b.toNat := by omega
      simp [charsLe, h1, h2, he]

theorem charsLe_trans : ∀ as bs cs, charsLe as bs = true → charsLe bs cs = true →
    charsLe as cs = true
  | [], _, _ => fun _ _ => rfl
  | a :: as, [], cs => fun h _ => absurd h (by simp [charsLe])
  | a :: as, b :: bs, [] => fun _ h => absurd h (by simp [charsLe])
  | a :: as, b :: bs, c :: cs => by
    intro h1 h2
    rcases (charsLe_cons_iff a b as bs).mp h1 with hab | ⟨hab, htail1⟩ <;>
      rcases (charsLe_cons_iff b c bs cs).mp h2 with hbc | ⟨hbc, htail2⟩
    · exact (charsLe_cons_iff a c as cs).mpr (Or.inl (by omega))
    · exact (charsLe_cons_iff a c as cs).mpr (Or.inl (by omega))
    · exact (charsLe_cons_iff a c as cs).mpr (Or.inl (by omega))
    · exact (charsLe_cons_iff a c as cs).mpr
        (Or.inr ⟨by omega, charsLe_trans as bs cs htail1 htail2⟩)

theorem charsLe_antisymm : ∀ as bs, charsLe as bs = true → charsLe bs as = true →
    as = bs
  | [], [] => fun _ _ => rfl
  | [], _ :: _ => fun _ h => absurd h (by simp [charsLe])
  | _ :: _, [] => fun h _ => absurd h (by simp [charsLe])
  | a :: as, b :: bs => by
    intro h1 h2
    rcases (charsLe_cons_iff a b as bs).mp h1 with hab | ⟨hab, htail1⟩ <;>
      rcases (charsLe_cons_iff b a bs as).mp h2 with hba | ⟨hba, htail2⟩
    · omega
    · omega
    · omega
    · rw [char_eq_of_toNat_eq hab, charsLe_antisymm as bs htail1 htail2]

theorem pyStrLe_antisymm (a b : String) (h1 : pyStrLe a b = true)
    (h2 : pyStrLe b a = true) : a = b := by
  have hd : a.data = b.data := charsLe_antisymm a.data b.data h1 h2
  cases a
  cases b
  exact congrArg String.mk hd

instance keyLe_total {α : Type} : IsTotal (String × α) keyLe :=
  ⟨fun a b => charsLe_total a.1.data b.1.data⟩

instance keyLe_trans {α : Type} : IsTrans (String × α) keyLe :=
  ⟨fun a b c h1 h2 => charsLe_trans a.1.data b.1.data c.1.data h1 h2⟩

/-- The strict version of the key order, used to make the sorted order
unique on distinct keys. -/
def keyLt {α : Type} (a b : String × α) : Prop := keyLe a b ∧ a.1 ≠ b.1

instance keyLt_antisymm {α : Type} : IsAntisymm (String × α) keyLt :=
  ⟨fun a b h1 h2 => absurd (pyStrLe_antisymm a.1 b.1 h1.1 h2.1) h1.2⟩

theorem sortByKey_perm {α : Type} (l : List (String × α)) : (sortByKey l).Perm l :=
  List.perm_insertionSort keyLe l

theorem sortByKey_sorted {α : Type} (l : List (String × α)) :
    List.Pairwise keyLe (sortByKey l) :=
  List.sorted_insertionSort keyLe l

/-- Two key-value lists that are permutations of each other with distinct
keys sort to the same list: the order Python sorted produces is fully
determined. -/
theorem sortByKey_eq_of_perm {α : Type} (l1 l2 : List (String × α))
    (hperm : l1.Perm l2) (hnd : (l1.map Prod.fst).Nodup) :
    sortByKey l1 = sortByKey l2 := by
  have hp : (sortByKey l1).Perm (sortByKey l2) :=
    ((sortByKey_perm l1).trans hperm).trans (sortByKey_perm l2).symm
  have hnd1 : ((sortByKey l1).map Prod.fst).Nodup :=
    (((sortByKey_perm l1).map Prod.fst).nodup_iff).mpr hnd
  have hnd2 : ((sortByKey l2).map Prod.fst).Nodup :=
    ((hp.map Prod.fst).nodup_iff).mp hnd1
  have hs1 : List.Pairwise (keyLt (α := α)) (sortByKey l1) := by
    have hne := (List.pairwise_map (l := sortByKey l1) (f := Prod.fst)
      (R := fun a b => a ≠ b)).mp hnd1
    exact ((sortByKey_sorted l1).and hne).imp (fun hx => ⟨hx.1, hx.2⟩)
  have hs2 : List.Pairwise (keyLt (α := α)) (sortByKey l2) := by
    have hne := (List.pairwise_map (l := sortByKey l2) (f := Prod.fst)
      (R := fun a b => a ≠ b)).mp hnd2
    exact ((sortByKey_sorted l2).and hne).imp (fun hx => ⟨hx.1, hx.2⟩)
  exact List.eq_of_perm_of_sorted hp hs1 hs2

/-- Rendering object entries keeps the keys, in order. -/
theorem dumpsSortedEntries_fst : ∀ (es : List (String × PyValue))
    (l : List (String × String)), dumpsSortedEntries es = .ok l →
    l.map Prod.fst = es.map Prod.fst := by
  intro es
  induction es with
  | nil =>
    intro l hl
    have hnil : (Except.ok ([] : List (String × String)) : Except Unit (List (String × String)))
        = Except.ok l := by
      rw [← hl]
      rfl
    rw [← Except.ok.inj hnil]
    rfl
  | cons kv rest ih =>
    intro l hl
    obtain ⟨k, v⟩ := kv
    cases hv : dumpsSorted v with
    | error e =>
      rw [dumpsSortedEntries, hv] at hl
      exact absurd hl (by simp [Bind.bind, Except.bind])
    | ok s =>
      cases hrest : dumpsSortedEntries rest with
      | error e =>
        rw [dumpsSortedEntries, hv, hrest] at hl
        exact absurd hl (by simp [Bind.bind, Except.bind])
      | ok l2 =>
        rw [dumpsSortedEntries, hv, hrest] at hl
        have hcons : l = (k, s) :: l2 := by
          have hh : (Except.ok ((k, s) :: l2) : Except Unit (List (String × String)))
              = Except.ok l := by
            simpa [Bind.bind, Except.bind, pure, Except.pure] using hl
          exact (Except.ok.inj hh).symm
        simp [hcons, ih l2 hrest]

/-- Rendering object entries respects permutation: permuted entry lists
either both fail to serialize or render to permuted key-text pairs. -/
theorem dumpsSortedEntries_perm (e1 e2 : List (String × PyValue))
    (hperm : e1.Perm e2) :
    (dumpsSortedEntries e1 = .error () ∧ dumpsSortedEntries e2 = .error ())
    ∨ (∃ l1 l2, dumpsSortedEntries e1 = .ok l1 ∧ dumpsSortedEntries e2 = .ok l2
        ∧ l1.Perm l2) := by
  induction hperm with
  | nil => exact Or.inr ⟨[], [], rfl, rfl, List.Perm.nil⟩
  | cons x h ih =>
    obtain ⟨k, v⟩ := x
    cases hv : dumpsSorted v with
    | error e =>
      cases e
      refine Or.inl ⟨?_, ?_⟩ <;>
        simp [dumpsSortedEntries, hv, Bind.bind, Except.bind]
    | ok s =>
      rcases ih with ⟨h1, h2⟩ | ⟨l1, l2, h1, h2, hp⟩
      · refine Or.inl ⟨?_, ?_⟩ <;>
          simp [dumpsSortedEntries, hv, h1, h2, Bind.bind, Except.bind]
      · refine Or.inr ⟨(k, s) :: l1, (k, s) :: l2, ?_, ?_, hp.cons (k, s)⟩ <;>
          simp [dumpsSortedEntries, hv, h1, h2, Bind.bind, Except.bind, pure, Except.pure]
  | swap x y l =>
    obtain ⟨kx, vx⟩ := x
    obtain ⟨ky, vy⟩ := y
    cases hvy : dumpsSorted vy with
    | error e =>
      cases e
      refine Or.inl ⟨?_, ?_⟩ <;>
        cases hvx : dumpsSorted vx <;>
          simp [dumpsSortedEntries, hvx, hvy, Bind.bind, Except.bind]
    | ok sy =>
      cases hvx : dumpsSorted vx with
      | error e =>
        cases e
        refine Or.inl ⟨?_, ?_⟩ <;>
          simp [dumpsSortedEntries, hvx, hvy, Bind.bind, Except.bind]
      | ok sx =>
        cases hrest : dumpsSortedEntries l with
        | error e =>
          cases e
          refine Or.inl ⟨?_, ?_⟩ <;>
            simp [dumpsSortedEntries, hvx, hvy, hrest, Bind.bind, Except.bind]
        | ok lr =>
          refine Or.inr ⟨(ky, sy) :: (kx, sx) :: lr, (kx, sx) :: (ky, sy) :: lr,
            ?_, ?_, List.Perm.swap (kx, sx) (ky, sy) lr⟩ <;>
            simp [dumpsSortedEntries, hvx, hvy, hrest, Bind.bind, Except.bind,
              pure, Except.pure]
  | trans h12 h23 ih12 ih23 =>
    rcases ih12 with ⟨a1, a2⟩ | ⟨l1, l2, a1, a2, ap⟩ <;>
      rcases ih23 with ⟨b2, b3⟩ | ⟨m2, m3, b2, b3, bp⟩
    · exact Or.inl ⟨a1, b3⟩
    · rw [a2] at b2
      exact Except.noConfusion b2
    · rw [b2] at a2
      exact Except.noConfusion a2
    · have hl : l2 = m2 := by
        rw [a2] at b2
        exact Except.ok.inj b2
      exact Or.inr ⟨l1, m3, a1, b3, (hl ▸ ap).trans bp⟩

/-- The canonical (sort_keys) serialization of a dict does not depend on
the internal ordering of its entries. -/
theorem dumpsSorted_dict_perm (e1 e2 : List (String × PyValue))
    (hperm : e1.Perm e2) (hnd : (e1.map Prod.fst).Nodup) :
    dumpsSorted (PyValue.dict e1) = dumpsSorted (PyValue.dict e2) := by
  rcases dumpsSortedEntries_perm e1 e2 hperm with ⟨h1, h2⟩ | ⟨l1, l2, h1, h2, hp⟩
  · simp [dumpsSorted, h1, h2, Bind.bind, Except.bind]
  · have hnd1 : (l1.map Prod.fst).Nodup := by
      rw [dumpsSortedEntries_fst e1 l1 h1]
      exact hnd
    have hsort : sortByKey l1 = sortByKey l2 := sortByKey_eq_of_perm l1 l2 hp hnd1
    simp [dumpsSorted, h1, h2, hsort, Bind.bind, Except.bind, pure, Except.pure]

/-- Replacing one list element by another with the same image commutes
with the effectful map. -/
theorem mapE_append_congr {α β : Type} (f : α → Except Unit β) (l1 l2 : List α)
    (a b : α) (hab : f a = f b) :
    mapE f (l1 ++ a :: l2) = mapE f (l1 ++ b :: l2) := by
  induction l1 with
  | nil => simp [mapE, hab]
  | cons x rest ih => simp [mapE, ih]

/-- C6: key stability under argument reordering.  Supplying the named
arguments in any order yields the same key (they are sorted by raw name
before the parts are appended and normalized, as the spec describes);
reordering the entries of a dictionary-valued positional argument yields
the same key (sort_keys canonicalizes the serialization hash_data
consumes); and the name-sorted list the name=value segments are built
from is indeed sorted by the source's string comparison and is a fixed
point of the sorting. -/
theorem C6_key_stability (h : String → String) (pre : String) (args : List PyValue)
    (kwargs kwargs' e1 e2 : List (String × PyValue))
    (hperm : kwargs.Perm kwargs') (hnd : (kwargs.map Prod.fst).Nodup)
    (heperm : e1.Perm e2) (hend : (e1.map Prod.fst).Nodup) :
    CacheKey.generate h pre args kwargs = CacheKey.generate h pre args kwargs'
    ∧ (∀ (pre2 : String) (args1 args2 : List PyValue)
        (kw2 : List (String × PyValue)),
        CacheKey.generate h pre2 (args1 ++ PyValue.dict e1 :: args2) kw2
          = CacheKey.generate h pre2 (args1 ++ PyValue.dict e2 :: args2) kw2)
    ∧ List.Pairwise keyLe (sortByKey kwargs)
    ∧ CacheKey.generate h pre args kwargs
        = CacheKey.generate h pre args (sortByKey kwargs) := by
  refine ⟨?_, ?_, sortByKey_sorted kwargs, ?_⟩
  · simp only [CacheKey.generate, sortByKey_eq_of_perm kwargs kwargs' hperm hnd]
  · intro pre2 args1 args2 kw2
    have hdict := dumpsSorted_dict_perm e1 e2 heperm hend
    have hab : CacheKey.argPart h (PyValue.dict e1)
        = CacheKey.argPart h (PyValue.dict e2) := by
      simp [CacheKey.argPart, CacheKey.isPrimitive, CacheKey.hash_data, hdict]
    simp only [CacheKey.generate,
      mapE_append_congr (CacheKey.argPart h) args1 args2 _ _ hab]
  · have hfix : sortByKey (sortByKey kwargs) = sortByKey kwargs :=
      List.Sorted.insertionSort_eq (sortByKey_sorted kwargs)
    simp only [CacheKey.generate, hfix]

/-- C6 witness: concrete reordered keyword arguments and a concrete
reordered dict argument. -/
theorem C6_key_stability_witness :
    ([("b", PyValue.int 2), ("a", PyValue.int 1)].Perm
        [("a", PyValue.int 1), ("b", PyValue.int 2)])
    ∧ (([("b", PyValue.int 2), ("a", PyValue.int 1)].map Prod.fst).Nodup)
    ∧ CacheKey.generate id "p" [] [("b", PyValue.int 2), ("a", PyValue.int 1)]
        = CacheKey.generate id "p" [] [("a", PyValue.int 1), ("b", PyValue.int 2)] :=
  have hperm : [("b", PyValue.int 2), ("a", PyValue.int 1)].Perm
      [("a", PyValue.int 1), ("b", PyValue.int 2)] :=
    List.Perm.swap ("a", PyValue.int 1) ("b", PyValue.int 2) []
  have hnd : (([("b", PyValue.int 2), ("a", PyValue.int 1)].map Prod.fst)).Nodup := by
    simp
  ⟨hperm, hnd,
   (C6_key_stability id "p" [] [("b", PyValue.int 2), ("a", PyValue.int 1)]
      [("a", PyValue.int 1), ("b", PyValue.int 2)] [] [] hperm hnd
      (List.Perm.refl []) (by simp)).1⟩

/-- Looking up the index right after a prefix lands at the head of the
suffix. -/
theorem get?_append_len {α : Type} (l1 l2 : List α) :
    (l1 ++ l2).get? l1.length = l2.get? 0 := by
  induction l1 with
  | nil => rfl
  | cons a rest ih => simpa using ih

/-- Setting the index right after a prefix updates the head of the
suffix. -/
theorem set_append_len {α : Type} (l1 l2 : List α) (a : α) :
    (l1 ++ l2).set l1.length a = l1 ++ l2.set 0 a := by
  induction l1 with
  | nil => rfl
  | cons x rest ih => simp [ih]

/-- Running a schedule step by step. -/
theorem sysRun_cons {σ : Type} (B : Backend σ) (now : ℤ) (key : String)
    (ttlM ttlR : ℤ) (v0 : PyValue) (sys : Sys σ) (i : Nat) (l : List Nat) :
    sysRun B now key ttlM ttlR v0 sys (i :: l)
      = sysRun B now key ttlM ttlR v0 (sysStep B now key ttlM ttlR v0 sys i) l := rfl

/-- Running a concatenation of schedules. -/
theorem sysRun_append {σ : Type} (B : Backend σ) (now : ℤ) (key : String)
    (ttlM ttlR : ℤ) (v0 : PyValue) (sys : Sys σ) (l1 l2 : List Nat) :
    sysRun B now key ttlM ttlR v0 sys (l1 ++ l2)
      = sysRun B now key ttlM ttlR v0 (sysRun B now key ttlM ttlR v0 sys l1) l2 :=
  List.foldl_append _ _ l1 l2

/-- The orchestrator state after m misses have been counted in the
N-caller scenario: fresh near tier, far tier down, m misses. -/
def rcA (m : Nat) : ResponseCache (List (String × String)) :=
  { memory := MemoryCache.mkFresh 100, redis := redisDown,
    counters := { memoryHits := 0, redisHits := 0, misses := m, sets := 0 } }

/-- In the scenario state both tiers miss, so the pre-compute block
counts a miss and proceeds. -/
theorem gocPre_rcA (now : ℤ) (key : String) (ttlM : ℤ) (m : Nat) :
    (rcA m).gocPre goodBackend now key ttlM = .missCompute (rcA (m + 1)) := by
  rw [gocPre_miss goodBackend now (rcA m) key ttlM rfl rfl]
  rfl

/-- The post-compute block touches only the tiers and the set counter,
never the miss counter. -/
theorem gocPost_misses {σ : Type} (B : Backend σ) (now : ℤ) (rc : ResponseCache σ)
    (key : String) (v : PyValue) (ttlM ttlR : ℤ) :
    (rc.gocPost B now key v ttlM ttlR).counters.misses = rc.counters.misses := rfl

/-- First half of the canonical concurrent schedule: the k still-ready
tasks (indices m..m+k-1) each run their pre-compute block and start their
own computation; none of them populates a tier, so every one of them
misses and increments the shared counter. -/
theorem phaseA_run : ∀ (k m c : Nat) (now : ℤ) (key : String) (ttlM ttlR : ℤ)
    (v0 : PyValue),
    sysRun goodBackend now key ttlM ttlR v0
        ⟨rcA m, c, List.replicate m TaskSt.waiting ++ List.replicate k TaskSt.ready⟩
        (List.range' m k)
      = ⟨rcA (m + k), c + k, List.replicate (m + k) TaskSt.waiting⟩ := by
  intro k
  induction k with
  | zero =>
    intro m c now key ttlM ttlR v0
    simp [sysRun, List.range']
  | succ k ih =>
    intro m c now key ttlM ttlR v0
    have hrange : List.range' m (k + 1) = m :: List.range' (m + 1) k := rfl
    have hget : (List.replicate m TaskSt.waiting ++
        List.replicate (k + 1) TaskSt.ready).get? m = Option.some TaskSt.ready := by
      have := get?_append_len (List.replicate m TaskSt.waiting)
        (List.replicate (k + 1) TaskSt.ready)
      simpa [List.replicate_succ] using this
    have hset : (List.replicate m TaskSt.waiting ++
        List.replicate (k + 1) TaskSt.ready).set m TaskSt.waiting
        = List.replicate (m + 1) TaskSt.waiting ++ List.replicate k TaskSt.ready := by
      have := set_append_len (List.replicate m TaskSt.waiting)
        (List.replicate (k + 1) TaskSt.ready) TaskSt.waiting
      simp only [List.length_replicate] at this
      rw [this, List.replicate_succ (n := k), List.set_cons_zero,
        List.replicate_succ' (n := m), List.append_assoc]
      rfl
    have hstep : sysStep goodBackend now key ttlM ttlR v0
        ⟨rcA m, c, List.replicate m TaskSt.waiting ++ List.replicate (k + 1) TaskSt.ready⟩ m
        = ⟨rcA (m + 1), c + 1,
            List.replicate (m + 1) TaskSt.waiting ++ List.replicate k TaskSt.ready⟩ := by
      unfold sysStep
      rw [hget]
      simp only [gocPre_rcA, hset]
    rw [hrange, sysRun_cons, hstep, ih (m + 1) (c + 1) now key ttlM ttlR v0]
    have h1 : m + 1 + k = m + (k + 1) := by omega
    have h2 : c + 1 + k = c + (k + 1) := by omega
    rw [h1, h2]

/-- Second half of the canonical concurrent schedule: each of the k
waiting tasks resumes with the fixed value, runs the write-through tail
and finishes with that value; the shared counter and the miss counter do
not move again. -/
theorem phaseB_run : ∀ (k m : Nat) (sys : Sys (List (String × String))) (now : ℤ)
    (key : String) (ttlM ttlR : ℤ) (v0 : PyValue),
    sys.tasks = List.replicate m (TaskSt.done v0) ++ List.replicate k TaskSt.waiting →
    (sysRun goodBackend now key ttlM ttlR v0 sys (List.range' m k)).counter = sys.counter
    ∧ (sysRun goodBackend now key ttlM ttlR v0 sys
        (List.range' m k)).rc.counters.misses = sys.rc.counters.misses
    ∧ (sysRun goodBackend now key ttlM ttlR v0 sys (List.range' m k)).tasks
        = List.replicate (m + k) (TaskSt.done v0) := by
  intro k
  induction k with
  | zero =>
    intro m sys now key ttlM ttlR v0 htasks
    simpa [sysRun, List.range'] using htasks
  | succ k ih =>
    intro m sys now key ttlM ttlR v0 htasks
    have hget : sys.tasks.get? m = Option.some TaskSt.waiting := by
      rw [htasks]
      have := get?_append_len (List.replicate m (TaskSt.done v0))
        (List.replicate (k + 1) TaskSt.waiting)
      simpa [List.replicate_succ] using this
    have hset : sys.tasks.set m (TaskSt.done v0)
        = List.replicate (m + 1) (TaskSt.done v0) ++ List.replicate k TaskSt.waiting := by
      rw [htasks]
      have := set_append_len (List.replicate m (TaskSt.done v0))
        (List.replicate (k + 1) TaskSt.waiting) (TaskSt.done v0)
      simp only [List.length_replicate] at this
      rw [this, List.replicate_succ (n := k), List.set_cons_zero,
        List.replicate_succ' (n := m), List.append_assoc]
      rfl
    have hstep : sysStep goodBackend now key ttlM ttlR v0 sys m
        = { sys with rc := sys.rc.gocPost goodBackend now key v0 ttlM ttlR,
                     tasks := sys.tasks.set m (TaskSt.done v0) } := by
      unfold sysStep
      rw [hget]
    have hrange : List.range' m (k + 1) = m :: List.range' (m + 1) k := rfl
    rw [hrange, sysRun_cons, hstep]
    have hrec := ih (m + 1)
      { sys with rc := sys.rc.gocPost goodBackend now key v0 ttlM ttlR,
                 tasks := sys.tasks.set m (TaskSt.done v0) }
      now key ttlM ttlR v0 (by simpa using hset)
    refine ⟨hrec.1, ?_, ?_⟩
    · rw [hrec.2.1]
      exact gocPost_misses goodBackend now sys.rc key v0 ttlM ttlR
    · rw [hrec.2.2]
      have : m + 1 + k = m + (k + 1) := by omega
      rw [this]

/-- C1 counterexample: two concurrent get_or_compute calls on one absent
key (far tier down, so the only suspension point is the await of
compute_fn).  Under the schedule in which both callers pass the tier
probes before either computation resolves - the claim's "concurrent"
scenario - the shared counter ends at 2, not 1: the orchestrator performs
no coalescing. -/
theorem C1_single_flight_counterexample :
    (sysRun goodBackend 0 "k" 300 3600 (PyValue.str "v") (sysInit 2) [0, 1, 0, 1]).counter
      = 2 ∧ (2 : Nat) ≠ 1 ∧
    (sysRun goodBackend 0 "k" 300 3600 (PyValue.str "v") (sysInit 2) [0, 1, 0, 1]).tasks
      = [TaskSt.done (PyValue.str "v"), TaskSt.done (PyValue.str "v")] :=
  ⟨rfl, by decide, rfl⟩

/-- C1 amended: the orchestrator's get_or_compute performs no
single-flight coalescing and its stats dict carries no dedup counter (the
Stats record of the source has only tier hits, misses and sets; the
coalescing RequestDeduplicator is never called by ResponseCache).  For
every N at least 1, under the canonical concurrent schedule - every
caller passes both tier probes before any computation resolves -
compute_fn is invoked once per caller: the shared counter and the miss
counter both end at N, and every caller still receives the fixed
value. -/
theorem C1_single_flight_amended (n : Nat) (hn : 1 ≤ n) (now : ℤ) (key : String)
    (ttlM ttlR : ℤ) (v0 : PyValue) :
    (sysRun goodBackend now key ttlM ttlR v0 (sysInit n)
        (List.range n ++ List.range n)).counter = n
    ∧ (sysRun goodBackend now key ttlM ttlR v0 (sysInit n)
        (List.range n ++ List.range n)).rc.counters.misses = n
    ∧ (sysRun goodBackend now key ttlM ttlR v0 (sysInit n)
        (List.range n ++ List.range n)).tasks = List.replicate n (TaskSt.done v0) := by
  have hinit : sysInit n =
      ⟨rcA 0, 0, List.replicate 0 TaskSt.waiting ++ List.replicate n TaskSt.ready⟩ := rfl
  have hrange : List.range n = List.range' 0 n := List.range_eq_range' n
  rw [hinit, hrange, sysRun_append, phaseA_run n 0 0 now key ttlM ttlR v0]
  simp only [Nat.zero_add]
  have hB := phaseB_run n 0
    ⟨rcA n, n, List.replicate n TaskSt.waiting⟩ now key ttlM ttlR v0 (by simp)
  simp only [Nat.zero_add] at hB
  exact ⟨hB.1, hB.2.1, hB.2.2⟩

/-- C1 amended witness: the canonical schedule with two callers. -/
theorem C1_single_flight_amended_witness :
    (1 : Nat) ≤ 2 ∧
    (sysRun goodBackend 0 "k" 300 3600 (PyValue.str "v") (sysInit 2)
        (List.range 2 ++ List.range 2)).counter = 2 :=
  ⟨by decide,
   (C1_single_flight_amended 2 (by decide) 0 "k" 300 3600 (PyValue.str "v")).1⟩

/-- C2: what the deduplicator actually does when a joining waiter's
timeout elapses.  The joiner awaits asyncio.wait_for on the shared task,
and wait_for cancels the awaited future on timeout; the future is the one
shared task, so the cancellation kills the shared computation.  Running
the scenario start-A, join-B, timeout-B: B gets TimeoutError, but A - who
merely awaited the shared task - gets CancelledError instead of the
result, async_fn never completes, and the registry entry is removed by
the task's cleanup rather than staying until the computation resolves.
The last two conjuncts show the no-timeout run for contrast: there both
callers do receive the value. -/
theorem C2_waiter_timeout_cancels_shared (v0 : PyValue) :
    (dedupRun v0 dedupInit [DedupEv.aStart, DedupEv.bJoin, DedupEv.bTimeout]).outcomeA
      = CallerOutcome.cancelledError
    ∧ (dedupRun v0 dedupInit [DedupEv.aStart, DedupEv.bJoin, DedupEv.bTimeout]).outcomeB
      = CallerOutcome.timeoutError
    ∧ (dedupRun v0 dedupInit
        [DedupEv.aStart, DedupEv.bJoin, DedupEv.bTimeout]).computeCompletions = 0
    ∧ (dedupRun v0 dedupInit
        [DedupEv.aStart, DedupEv.bJoin, DedupEv.bTimeout]).registryHasKey = false
    ∧ (dedupRun v0 dedupInit [DedupEv.aStart, DedupEv.bJoin, DedupEv.bTimeout]).task
      = Option.some DedupTask.cancelled
    ∧ (dedupRun v0 dedupInit [DedupEv.aStart, DedupEv.bJoin, DedupEv.computeFinish]).outcomeA
      = CallerOutcome.value v0
    ∧ (dedupRun v0 dedupInit [DedupEv.aStart, DedupEv.bJoin, DedupEv.computeFinish]).outcomeB
      = CallerOutcome.value v0 :=
  ⟨rfl, rfl, rfl, rfl, rfl, rfl, rfl⟩
